import Mathlib

/-!
Verification of the exact-arithmetic simplex tableau and solver
(`lpsolver_py/tableau.py` and `lpsol/simplex.py`): a shallow embedding of
the `Tableau` data structure, its row-arithmetic and pivot primitives, the
`Simplex` driver (two-phase method with artificial variables), and the
JSON persistence layer, together with proofs about them.

Python `Fraction` values are modelled by `ℚ`; Python lists by `List`;
exceptions by `Except` with an explicit error code.  Mutating methods
become functions returning the updated tableau.
-/

namespace LpVerif

deriving instance DecidableEq for Except

/-- Error codes for the exceptions the Python code can raise.
`assertFail` carries the assertion message; `infeasible` stands for the
`ValueError` raised with the `infeasible problem` message; `fuelOut`
marks exhaustion of the explicit fuel that bounds the solver loops. -/
inductive Err where
  | indexError
  | typeError
  | zeroDivision
  | valueError
  | infeasible
  | assertFail (msg : String)
  | fuelOut
  | keyError
  deriving DecidableEq, Repr

/-- The simplex tableau: `m` constraints, `n` variables, stored objective
scalar `z` (the negative of the reported objective value), reduced costs
`c`, right-hand sides `b`, constraint matrix `a`, column names `cl` and
basic markings `cm` — the fields `_m, _n, _z, _c, _b, _a, _cl, _cm` of the
Python class. -/
structure Tableau where
  m : Nat
  n : Nat
  z : ℚ
  c : List ℚ
  b : List ℚ
  a : List (List ℚ)
  cl : List String
  cm : List Bool
  deriving DecidableEq, Repr

namespace Tableau

/-- Shape invariant of a tableau: the documented relation between the
stored dimensions and the list lengths. -/
def WF (t : Tableau) : Prop :=
  t.b.length = t.m ∧ t.c.length = t.n ∧ t.a.length = t.m ∧
    (∀ row ∈ t.a, row.length = t.n) ∧ t.cl.length = t.n ∧ t.cm.length = t.n

instance (t : Tableau) : Decidable t.WF := by
  unfold WF; exact inferInstance

/-- Entry `a[i][j]` of the constraint matrix, with default `0` out of
range (all in-range in well-formed use). -/
def aij (t : Tableau) (i j : Nat) : ℚ := (t.a.getD i []).getD j 0

/-- Entry `b[i]`, with default `0` out of range. -/
def bi (t : Tableau) (i : Nat) : ℚ := t.b.getD i 0

/-- Entry `c[j]`, with default `0` out of range. -/
def cj (t : Tableau) (j : Nat) : ℚ := t.c.getD j 0

/-- `getZ`: the reported objective value, the negative of the stored
scalar. -/
def getZ (t : Tableau) : ℚ := -t.z

/-- `setZ`: store the negative of the given objective value. -/
def setZ (t : Tableau) (v : ℚ) : Tableau := { t with z := -v }

/-- Effective index of a Python sequence access: a nonnegative index is
used as is when below the length, a negative index counts from the end,
anything else is out of bounds. -/
def pyIndex (len : Nat) (i : Int) : Option Nat :=
  if 0 ≤ i then (if i < (len : Int) then some i.toNat else none)
  else (if 0 ≤ i + (len : Int) then some (i + (len : Int)).toNat else none)

/-- Python sequence read `l[i]`: `IndexError` when the effective index
does not exist. -/
def pyGet {α : Type} (l : List α) (i : Int) : Except Err α :=
  match (pyIndex l.length i).bind l.get? with
  | some x => .ok x
  | none => .error .indexError

/-- `getCj`: read one reduced cost by plain Python indexing. -/
def getCj (t : Tableau) (j : Int) : Except Err ℚ := pyGet t.c j

/-- `getBi`: read one right-hand side by plain Python indexing. -/
def getBi (t : Tableau) (i : Int) : Except Err ℚ := pyGet t.b i

/-- `getAij`: read one matrix entry by plain Python indexing of the row
list and then the row. -/
def getAij (t : Tableau) (i j : Int) : Except Err ℚ := do
  let row ← pyGet t.a i
  pyGet row j

/-- `getVarName`: read one column name by plain Python indexing. -/
def getVarName (t : Tableau) (j : Int) : Except Err String := pyGet t.cl j

/-- `getVarMark`: read one column marking by plain Python indexing. -/
def getVarMark (t : Tableau) (j : Int) : Except Err Bool := pyGet t.cm j

/-- `setCj` with an in-range index (the solver always passes one). -/
def setCj (t : Tableau) (j : Nat) (v : ℚ) : Tableau :=
  { t with c := t.c.set j v }

/-- `setAij` with in-range indices (the solver always passes them). -/
def setAij (t : Tableau) (i j : Nat) (v : ℚ) : Tableau :=
  { t with a := t.a.set i ((t.a.getD i []).set j v) }

/-- `setC`: overwrite every reduced cost, one `setCj` per column index
below `n` (the argument list covers all of them in every call site). -/
def setC (t : Tableau) (vals : List ℚ) : Tableau :=
  { t with c := (List.range t.n).map (fun j => vals.getD j 0) }

/-- `setVarMark` with a Python (possibly negative) index; the write is
dropped when the effective index does not exist. -/
def setVarMark (t : Tableau) (j : Int) (v : Bool) : Tableau :=
  match pyIndex t.cm.length j with
  | some k => { t with cm := t.cm.set k v }
  | none => t

/-- `addVars`: append zero-initialized columns with the given names. -/
def addVars (t : Tableau) (vs : List String) : Tableau :=
  { t with
    n := t.n + vs.length
    c := t.c ++ List.replicate vs.length 0
    a := t.a.map (fun row => row ++ List.replicate vs.length 0)
    cl := t.cl ++ vs
    cm := t.cm ++ List.replicate vs.length false }

/-- `rowMult`: scale constraint row `r` by `k`; no-op when `k = 1`. -/
def rowMult (t : Tableau) (r : Nat) (k : ℚ) : Tableau :=
  if k = 1 then t
  else { t with
    b := t.b.set r (t.b.getD r 0 * k)
    a := t.a.set r ((t.a.getD r []).map (fun x => x * k)) }

/-- `rowDiv`: scale row `r` by `1/d`, `ZeroDivisionError` when `d = 0`. -/
def rowDiv (t : Tableau) (r : Nat) (d : ℚ) : Except Err Tableau :=
  if d = 0 then .error .zeroDivision
  else .ok (t.rowMult r (1 / d))

/-- `rowAdd`: add `k` times row `rs` to row `rd` (entries `j < n`);
no-op when `k = 0`. -/
def rowAdd (t : Tableau) (rd rs : Nat) (k : ℚ) : Tableau :=
  if k = 0 then t
  else { t with
    b := t.b.set rd (t.b.getD rd 0 + k * t.b.getD rs 0)
    a := t.a.set rd ((List.range t.n).map (fun j =>
      (t.a.getD rd []).getD j 0 + k * (t.a.getD rs []).getD j 0)) }

/-- `rowSub`: subtract `k` times row `rs` from row `rd`. -/
def rowSub (t : Tableau) (rd rs : Nat) (k : ℚ) : Tableau :=
  t.rowAdd rd rs (-k)

/-- `rowAddToObj`: add `k` times row `r` to the objective row (`z` and
`c`); no-op when `k = 0`. -/
def rowAddToObj (t : Tableau) (r : Nat) (k : ℚ) : Tableau :=
  if k = 0 then t
  else { t with
    z := t.z + k * t.b.getD r 0
    c := (List.range t.n).map (fun j =>
      t.c.getD j 0 + k * (t.a.getD r []).getD j 0) }

/-- `rowSubFromObj`: subtract `k` times row `r` from the objective row. -/
def rowSubFromObj (t : Tableau) (r : Nat) (k : ℚ) : Tableau :=
  t.rowAddToObj r (-k)

/-- One iteration of the elimination loop of `pivot(r, c)`: skip the
pivot row, otherwise subtract `a[rr][c]` times row `r` from row `rr`
(the multiplier is read from the current state, as in the source). -/
def elimStep (r c : Nat) (u : Tableau) (rr : Nat) : Tableau :=
  if rr = r then u else u.rowSub rr r (u.aij rr c)

/-- `pivot(r, c)`: fail on a zero pivot entry, otherwise normalize row
`r`, zero the reduced cost of column `c`, and eliminate column `c` from
every other constraint row. -/
def pivot (t : Tableau) (r c : Nat) : Except Err Tableau := do
  if t.aij r c = 0 then
    .error .zeroDivision
  else do
    let t1 ← t.rowDiv r (t.aij r c)
    let t2 := t1.rowAddToObj r (-(t1.cj c))
    return (List.range t2.m).foldl (elimStep r c) t2

/-- Column `j` is an identity column aligned to row `i`: zero reduced
cost, entry `1` in row `i` and `0` in every other row — exactly the
columns the `isCanonical` scan collects into `cols[i]`. -/
def isIdentCol (t : Tableau) (i j : Nat) : Prop :=
  t.cj j = 0 ∧ t.aij i j = 1 ∧ ∀ k, k < t.m → k ≠ i → t.aij k j = 0

instance (t : Tableau) (i j : Nat) : Decidable (t.isIdentCol i j) := by
  unfold isIdentCol; exact inferInstance

/-- Canonical form as a proposition: every right-hand side nonnegative
and an identity column aligned to every row. -/
def Canonical (t : Tableau) : Prop :=
  (∀ i, i < t.m → 0 ≤ t.bi i) ∧
    (∀ i, i < t.m → ∃ j, j < t.n ∧ t.isIdentCol i j)

instance (t : Tableau) : Decidable t.Canonical := by
  unfold Canonical; exact inferInstance

/-- `isCanonical`: the Boolean result of the source's scan — `False` as
soon as some `b[i] < 0`, otherwise `True` iff every row has at least one
identity column. -/
def isCanonical (t : Tableau) : Bool := decide t.Canonical

/-- The entry `isCanonical` records in its `bcols` output for row `i`:
the lowest-index identity column aligned to row `i`, or `-1`. -/
def bcol (t : Tableau) (i : Nat) : Int :=
  match (List.range t.n).find? (fun j => decide (t.isIdentCol i j)) with
  | some j => (j : Int)
  | none => -1

/-- The whole `bcols` output of `isCanonical`: one entry per row. -/
def bcolsList (t : Tableau) : List Int := (List.range t.m).map t.bcol

/-- `isOptimal`: every reduced cost nonnegative. -/
def isOptimal (t : Tableau) : Bool := t.c.all (fun x => decide (0 ≤ x))

end Tableau

/-- The textbook tableau `tab1a` of the test suite: minimize
`-40 x1 - 30 x2` with rows `x1+x2+s1 = 12` and `2 x1+x2+s2 = 16`. -/
def tab1a : Tableau :=
  ⟨2, 4, 0, [-40, -30, 0, 0], [12, 16], [[1, 1, 1, 0], [2, 1, 0, 1]],
    ["x1", "x2", "s1", "s2"], [false, false, false, false]⟩

/-- The expected tableau `tab1b` after `pivot(1, 0)`: stored scalar `320`
(reported objective `-320`). -/
def tab1b : Tableau :=
  ⟨2, 4, 320, [0, -10, 0, 20], [4, 8],
    [[0, 1/2, 1, -1/2], [1, 1/2, 0, 1/2]],
    ["x1", "x2", "s1", "s2"], [false, false, false, false]⟩

/-- The expected optimal tableau `tab1c` after the further `pivot(0, 1)`:
stored scalar `400` (reported objective `-400`). -/
def tab1c : Tableau :=
  ⟨2, 4, 400, [0, 0, 20, 10], [8, 4], [[0, 1, 2, -1], [1, 0, -1, 1]],
    ["x1", "x2", "s1", "s2"], [false, false, false, false]⟩

/-- Input with the constraint `x + y = 1` stated twice: the two rows are
linearly dependent, so phase 1 must delete one of them. -/
def dupRowInput : Tableau :=
  ⟨2, 2, 0, [0, 0], [1, 1], [[1, 1], [1, 1]], ["x", "y"], [false, false]⟩

/-- The tableau state `_find_bfs` leaves behind on `dupRowInput`: the
dependent row has been deleted from `b` and `a` (and the artificial
columns stripped), but `m` still holds the original row count `2`. -/
def dupRowFinal : Tableau :=
  ⟨2, 2, 0, [0, 0], [1], [[1, 1]], ["x", "y"], [true, false]⟩

/-- Contradictory input `x + y = 1`, `x + y = 2`: an infeasible problem,
the infeasible scenario of the specification. -/
def infeasInput : Tableau :=
  ⟨2, 2, 0, [0, 0], [1, 2], [[1, 1], [1, 1]], ["x", "y"], [false, false]⟩

/-- The optimal artificial-problem state `_find_bfs` reaches on
`infeasInput` before testing feasibility: stored scalar `-1`, so the
minimized artificial objective is `1 ≠ 0`. -/
def infeasArtState : Tableau :=
  ⟨2, 4, -1, [0, 0, 2, 0], [1, 1], [[1, 1, 1, 0], [0, 0, -1, 1]],
    ["x", "y", "$a0", "$a1"], [true, false, false, false]⟩

/-- A canonical tableau of an unbounded problem: minimize `-x` with the
single row `-x + y = 1` (column `y` basic); `x` can grow without bound. -/
def unboundedInput : Tableau :=
  ⟨1, 2, 0, [-1, 0], [1], [[-1, 1]], ["x", "y"], [false, true]⟩

/-- A tableau where the two pivot rules disagree: minimize `-x - 2y`
with the single row `-x + y = 1`. Bland's minimum-index rule examines
column `x` first and finds no positive coefficient (`unbounded`), while
the standard most-negative rule would pick column `y` and pivot. -/
def blandGapInput : Tableau :=
  ⟨1, 2, 0, [-1, -2], [1], [[-1, 1]], ["x", "y"], [false, true]⟩

/-- Result of a pivot search: a pivot position, or one of the two
terminal signals of `findPivotStandard` / `findPivotMinIndex`. -/
inductive PivotResult where
  | optimal
  | unbounded
  | piv (i j : Nat)
  deriving DecidableEq, Repr

namespace Simplex

/-- One step of the row-selection loop shared by `findPivotStandard` and
`findPivotMinIndex`: skip rows with nonpositive coefficient, otherwise
keep the first row attaining the strictly smallest ratio `b[i]/a[i][j]`. -/
def stepRow (t : Tableau) (j : Nat) (acc : Option (Nat × ℚ)) (i2 : Nat) :
    Option (Nat × ℚ) :=
  if t.aij i2 j ≤ 0 then acc
  else
    match acc with
    | none => some (i2, t.bi i2 / t.aij i2 j)
    | some (i, mr) =>
      if t.bi i2 / t.aij i2 j < mr then some (i2, t.bi i2 / t.aij i2 j)
      else some (i, mr)

/-- The row-selection loop over all rows of column `j`; `none` means no
row has a positive coefficient (the `unbounded` case). -/
def rowScan (t : Tableau) (j : Nat) : Option (Nat × ℚ) :=
  (List.range t.m).foldl (stepRow t j) none

/-- One step of the column-selection loop of `findPivotStandard`: skip
columns with nonnegative reduced cost, otherwise keep whichever of the
current candidate and `j2` has the strictly smaller reduced cost. -/
def stepCol (t : Tableau) (acc : Option Nat) (j2 : Nat) : Option Nat :=
  if 0 ≤ t.cj j2 then acc
  else
    match acc with
    | none => some j2
    | some j => if t.cj j2 < t.cj j then some j2 else some j

/-- Column selection of `findPivotStandard`: the column with the most
negative reduced cost, first occurrence winning ties. -/
def colScanStandard (t : Tableau) : Option Nat :=
  (List.range t.n).foldl (stepCol t) none

/-- Column selection of `findPivotMinIndex` (Bland's rule): the first
column with negative reduced cost. -/
def colScanMinIndex (t : Tableau) : Option Nat :=
  (List.range t.n).find? (fun j => decide (t.cj j < 0))

/-- The pivot `findPivotStandard` reports (the `do_pivot` commit is the
explicit `pivotMarked` call at each use site). -/
def findPivotStandard (t : Tableau) : PivotResult :=
  match colScanStandard t with
  | none => .optimal
  | some j =>
    match rowScan t j with
    | none => .unbounded
    | some (i, _) => .piv i j

/-- The pivot `findPivotMinIndex` reports. -/
def findPivotMinIndex (t : Tableau) : PivotResult :=
  match colScanMinIndex t with
  | none => .optimal
  | some j =>
    match rowScan t j with
    | none => .unbounded
    | some (i, _) => .piv i j

/-- The internal unchecked `_pivot`: `Tableau.pivot`, then unmark the
column that was basic in row `r`, record column `c` as basic in row `r`
and mark it. -/
def pivotMarked (t : Tableau) (bfs : List Int) (r c : Nat) :
    Except Err (Tableau × List Int) :=
  match t.pivot r c with
  | .error e => .error e
  | .ok t1 =>
    let t2 := t1.setVarMark (bfs.getD r 0) false
    let t3 := t2.setVarMark (c : Int) true
    .ok (t3, bfs.set r (c : Int))

/-- One step of the minimum-ratio loop of the checked `Simplex.pivot`. -/
def stepMin (t : Tableau) (c : Nat) (acc : Option ℚ) (i : Nat) : Option ℚ :=
  if t.aij i c ≤ 0 then acc
  else
    match acc with
    | none => some (t.bi i / t.aij i c)
    | some mr =>
      if t.bi i / t.aij i c < mr then some (t.bi i / t.aij i c)
      else some mr

/-- The minimum-ratio loop of the checked `Simplex.pivot`: the smallest
`b[i]/a[i][c]` over rows with positive coefficient in column `c`. -/
def minRatioScan (t : Tableau) (c : Nat) : Option ℚ :=
  (List.range t.m).foldl (stepMin t c) none

/-- The checked `Simplex.pivot(r, c)`: recompute the minimum ratio, fail
with `ZeroDivisionError` on a zero pivot entry (the `b[r]/a[r][c]`
division), fail with the bad-pivot `ValueError` unless `b[r]/a[r][c]`
equals the minimum ratio, otherwise commit via the internal `_pivot`.
Indices are taken in range (the Python accessors raise `IndexError`
otherwise). -/
def pivot (t : Tableau) (bfs : List Int) (r c : Nat) :
    Except Err (Tableau × List Int) :=
  if r < t.m ∧ c < t.n then
    if t.aij r c = 0 then .error .zeroDivision
    else if (some (t.bi r / t.aij r c) : Option ℚ) ≠ minRatioScan t c then
      .error .valueError
    else pivotMarked t bfs r c
  else .error .indexError

/-- The first loop of `solve`: standard-rule pivots while the
stuck-step counter stays below `m+n`, with the source's assertions that
the search never reports `unbounded` and that the reported objective
value never rises above its value at entry to `solve` (`objVal`).
Explicit fuel bounds the recursion; running out is `fuelOut`. -/
def solveLoop1 (objVal : ℚ) (mn : Nat) :
    Nat → Nat → Tableau → List Int →
      Except (Err × Tableau) (Bool × Tableau × List Int)
  | 0, _, t, _ => .error (.fuelOut, t)
  | fuel + 1, steps, t, bfs =>
    if steps < mn then
      match findPivotStandard t with
      | .unbounded =>
        .error (.assertFail "unbounded artificial problem (internal error)", t)
      | .optimal => .ok (true, t, bfs)
      | .piv i j =>
        match pivotMarked t bfs i j with
        | .error e => .error (e, t)
        | .ok (t1, bfs1) =>
          if t1.getZ ≤ objVal then
            solveLoop1 objVal mn fuel
              (if t1.getZ = objVal then steps + 1 else 0) t1 bfs1
          else
            .error (.assertFail "objective value increased (internal error)", t1)
    else .ok (false, t, bfs)

/-- The second loop of `solve`: Bland minimum-index pivots until the
tableau is optimal, with the same `unbounded` assertion. -/
def solveLoop2 :
    Nat → Tableau → List Int → Except (Err × Tableau) (Tableau × List Int)
  | 0, t, _ => .error (.fuelOut, t)
  | fuel + 1, t, bfs =>
    match findPivotMinIndex t with
    | .unbounded =>
      .error (.assertFail "unbounded artificial problem (internal error)", t)
    | .optimal => .ok (t, bfs)
    | .piv i j =>
      match pivotMarked t bfs i j with
      | .error e => .error (e, t)
      | .ok (t1, bfs1) => solveLoop2 fuel t1 bfs1

/-- `solve`: return at once when already optimal, otherwise run the
standard-rule loop, fall back to the minimum-index loop when the
objective value seems stuck, and assert optimality at the end. -/
def solve (fuel : Nat) (t : Tableau) (bfs : List Int) :
    Except (Err × Tableau) (Tableau × List Int) :=
  if t.isOptimal then .ok (t, bfs)
  else
    match solveLoop1 t.getZ (t.m + t.n) fuel 0 t bfs with
    | .error et => .error et
    | .ok (isOpt, t1, bfs1) =>
      match (if isOpt then Except.ok (t1, bfs1) else solveLoop2 fuel t1 bfs1) with
      | .error et => .error et
      | .ok (t2, bfs2) =>
        if t2.isOptimal then .ok (t2, bfs2)
        else .error (.assertFail "solver failed (internal error)", t2)

/-- The loop of `_find_bfs` that makes every right-hand side
nonnegative by multiplying rows with negative `b[i]` by `-1`. -/
def flipNegRows (t : Tableau) : Tableau :=
  (List.range t.m).foldl
    (fun u i => if u.bi i < 0 then u.rowMult i (-1) else u) t

/-- The artificial-variable installation loop of `_find_bfs`: for the
`ind`-th missing row `i`, set `c[n+ind] = 1` and `a[i][n+ind] = 1`,
subtract row `i` from the objective row, and record column `n+ind` as
basic in row `i`. -/
def addArtLoop (n : Nat) (t : Tableau) (bfs : List Int)
    (missing : List Nat) : Tableau × List Int :=
  missing.enum.foldl (fun acc p =>
    let u1 := acc.1.setCj (n + p.1) 1
    let u2 := u1.setAij p.2 (n + p.1) 1
    let u3 := u2.rowSubFromObj p.2 1
    (u3, acc.2.set p.2 ((n + p.1 : Nat) : Int))) (t, bfs)

/-- Python list filtering by a parallel boolean mask, as in the
row-deletion comprehensions of `_find_bfs`. -/
def filterByKeep {α : Type} (l : List α) (keep : List Bool) : List α :=
  (l.zip keep).filterMap (fun p => if p.2 then some p.1 else none)

/-- The artificial-basic-variable repair loop of `_find_bfs`: rows whose
basic column is an original variable are skipped; otherwise assert
`b[i] = 0`, then pivot on the first nonzero original-variable entry of
the row, or mark the row for deletion when there is none. -/
def repairLoop (n : Nat) :
    List Nat → Tableau → List Int → List Bool →
      Except (Err × Tableau) (Tableau × List Int × List Bool)
  | [], t, bfs, keep => .ok (t, bfs, keep)
  | i :: rest, t, bfs, keep =>
    if bfs.getD i 0 < (n : Int) then repairLoop n rest t bfs keep
    else if t.bi i ≠ 0 then
      .error (.assertFail "invalid artificial solution (internal error)", t)
    else
      match (List.range n).find? (fun j2 => decide (t.aij i j2 ≠ 0)) with
      | none => repairLoop n rest t bfs (keep.set i false)
      | some j1 =>
        match pivotMarked t bfs i j1 with
        | .error e => .error (e, t)
        | .ok (t1, bfs1) => repairLoop n rest t1 bfs1 keep

/-- The objective-restoration loop of `_find_bfs`: for each surviving
row `i` with basic column `j`, subtract `c[j]` times row `i` from the
objective row (reading `c[j]` from the current state each time). -/
def objRestoreLoop : Nat → List Int → Tableau → Tableau
  | _, [], t => t
  | i, j :: rest, t => objRestoreLoop (i + 1) rest (t.rowSubFromObj i (t.cj j.toNat))

/-- The final marking loop of `_find_bfs`. -/
def markBasics (t : Tableau) (bfs : List Int) : Tableau :=
  bfs.foldl (fun u j => u.setVarMark j true) t

/-- The tail of `_find_bfs` after the feasibility test: repair the
artificial basic variables, delete linearly dependent rows from `b` and
`a` while writing the row count captured at entry (`m`) back into the
tableau, strip the artificial columns, restore the original objective
(`origZ`, `origC`), re-zero the reduced costs of the basic columns, and
assert canonical form.  Errors carry the tableau state at the raise. -/
def repairAndStrip (m n : Nat) (origC : List ℚ) (origZ : ℚ)
    (t4 : Tableau) (bfs4 : List Int) :
    Except (Err × Tableau) (Tableau × List Int) :=
  match repairLoop n (List.range m) t4 bfs4 (List.replicate m true) with
  | .error et => .error et
  | .ok (t5, bfs5, keep) =>
    let bfs6 := filterByKeep bfs5 keep
    if ¬ (bfs6.all (fun j => decide (0 ≤ j ∧ j < (n : Int)))) then
      .error (.assertFail "invalid basic feasible solution (internal error)", t5)
    else
      let t6 : Tableau := { t5 with
        b := filterByKeep t5.b keep
        a := filterByKeep t5.a keep
        m := m }
      let t7 : Tableau := { t6 with
        c := t6.c.take n
        cl := t6.cl.take n
        cm := t6.cm.take n
        a := t6.a.map (fun row => row.take n)
        n := n }
      let t8 := (t7.setZ origZ).setC origC
      let t9 := objRestoreLoop 0 bfs6 t8
      if ¬ t9.isCanonical then
        .error (.assertFail "tableau not canonical (internal error)", t9)
      else .ok (markBasics t9 bfs6, bfs6)

/-- The artificial-problem construction of `_find_bfs` on the (already
row-flipped, non-canonical) tableau: zero the working objective, append
one artificial column per row lacking a basic column (as recorded by the
`isCanonical` scan), and install the artificial variables. -/
def artificialSetup (t : Tableau) : Tableau × List Int :=
  let bfs := t.bcolsList
  let n := t.n
  let t1 := (t.setC (List.replicate n 0)).setZ 0
  let missing := (List.range bfs.length).filter (fun i => bfs.getD i 0 = -1)
  let t2 := t1.addVars (missing.map (fun i => "$a" ++ toString i))
  addArtLoop n t2 bfs missing

/-- `_find_bfs`, the construction phase of `Simplex`: flip negative
rows, stop early when the tableau is already canonical, otherwise build
and minimize the artificial problem, fail with the infeasibility error
when the minimized artificial objective is nonzero, and otherwise repair
and strip the artificial data.  The returned list is the basic sequence
`_bfs`; errors carry the tableau state at the raise. -/
def findBFS (fuel : Nat) (t0 : Tableau) :
    Except (Err × Tableau) (Tableau × List Int) :=
  let t := flipNegRows t0
  if t.isCanonical then .ok (t, t.bcolsList)
  else
    match solve fuel (artificialSetup t).1 (artificialSetup t).2 with
    | .error et => .error et
    | .ok (t4, bfs4) =>
      if t4.getZ ≠ 0 then .error (.infeasible, t4)
      else repairAndStrip t.m t.n t.c t.getZ t4 bfs4

end Simplex

/-- The side conditions under which a pivot position `(r, c)` is reached
by the solver: in-range, nonzero pivot entry, and either a zero
right-hand side in the pivot row (the phase-1 repair pivots) or the
minimum-ratio property (`b[r]/a[r][c]` is attained as the ratio of some
positive-coefficient row and is minimal among them). -/
def GoodPivot (t : Tableau) (r c : Nat) : Prop :=
  r < t.m ∧ c < t.n ∧ t.aij r c ≠ 0 ∧
    (t.bi r = 0 ∨
      ((∃ i, i < t.m ∧ 0 < t.aij i c ∧
          t.bi r / t.aij r c = t.bi i / t.aij i c) ∧
        (∀ i, i < t.m → 0 < t.aij i c →
          t.bi r / t.aij r c ≤ t.bi i / t.aij i c)))

/-- One pivot performed through the `Simplex` class on the pair
(tableau, basic sequence): either a successful call of the checked
`Simplex.pivot`, a committed pivot found by `findPivotStandard` or
`findPivotMinIndex` (the internal pivoting of `solve`), or a phase-1
repair pivot of `_find_bfs` (a row with zero right-hand side and a
nonzero entry in the chosen column). -/
inductive SolverStep : Tableau × List Int → Tableau × List Int → Prop where
  | manual {s s' : Tableau × List Int} (r c : Nat)
      (h : Simplex.pivot s.1 s.2 r c = .ok s') : SolverStep s s'
  | standard {s s' : Tableau × List Int} (i j : Nat)
      (hfind : Simplex.findPivotStandard s.1 = .piv i j)
      (h : Simplex.pivotMarked s.1 s.2 i j = .ok s') : SolverStep s s'
  | minIndex {s s' : Tableau × List Int} (i j : Nat)
      (hfind : Simplex.findPivotMinIndex s.1 = .piv i j)
      (h : Simplex.pivotMarked s.1 s.2 i j = .ok s') : SolverStep s s'
  | phase1 {s s' : Tableau × List Int} (i j : Nat)
      (hb : s.1.bi i = 0) (hi : i < s.1.m) (hj : j < s.1.n)
      (ha : s.1.aij i j ≠ 0)
      (h : Simplex.pivotMarked s.1 s.2 i j = .ok s') : SolverStep s s'

/-- The state reached from `tab1a` by the checked pivot on `(1, 0)`:
the data of `tab1b` with column `x1` marked basic. -/
def tab1bMarked : Tableau :=
  ⟨2, 4, 320, [0, -10, 0, 20], [4, 8],
    [[0, 1/2, 1, -1/2], [1, 1/2, 0, 1/2]],
    ["x1", "x2", "s1", "s2"], [true, false, false, false]⟩

/-- A Python value a `Tableau` may be compared against with `==`:
another tableau, or a non-`Tableau` value such as `None`, an `int`, a
`str` or a `bool`. -/
inductive PyValue where
  | tab (t : Tableau)
  | pynone
  | int (i : Int)
  | str (s : String)
  | bool (b : Bool)

/-- `Tableau.__eq__`: `TypeError` unless the other operand is a
`Tableau`; otherwise compare `m`, `n`, `z`, `c`, `b`, the rows of `a`
for indices below `m` (the source iterates `i in range(self._m)`), the
names and the marks. -/
def eqTableau (t : Tableau) (v : PyValue) : Except Err Bool :=
  match v with
  | .tab t2 => .ok (decide (t.m = t2.m) && decide (t.n = t2.n) &&
      decide (t.z = t2.z) && decide (t.c = t2.c) && decide (t.b = t2.b) &&
      (List.range t.m).all (fun i =>
        decide (t.a.getD i [] = t2.a.getD i [])) &&
      decide (t.cl = t2.cl) && decide (t.cm = t2.cm))
  | _ => .error .typeError

/-- JSON values, as far as the persistence format needs them. -/
inductive Json where
  | num (v : Int)
  | str (s : String)
  | bool (b : Bool)
  | arr (l : List Json)
  | obj (l : List (String × Json))

/-- Decimal digits of `n`, least significant first, by explicit fuel
(`n` itself bounds the number of divisions). -/
def decDigitsAux : Nat → Nat → List Nat
  | 0, _ => []
  | _ + 1, 0 => []
  | fuel + 1, n + 1 => (n + 1) % 10 :: decDigitsAux fuel ((n + 1) / 10)

/-- The decimal digit string of a natural number, as `str` renders it. -/
def natChars (n : Nat) : List Char :=
  if n = 0 then ['0']
  else ((decDigitsAux n n).map (fun d => Char.ofNat (48 + d))).reverse

/-- The decimal rendering of an integer, as `str` renders it. -/
def intChars (i : Int) : List Char :=
  if i < 0 then '-' :: natChars i.natAbs else natChars i.toNat

/-- The exact rational text `str(Fraction)` produces: `p` when the
denominator is 1, `p/q` otherwise. -/
def fracChars (q : ℚ) : List Char :=
  if q.den = 1 then intChars q.num
  else intChars q.num ++ '/' :: natChars q.den

/-- `str(Fraction)` as a string. -/
def fracStr (q : ℚ) : String := String.mk (fracChars q)

/-- One decimal digit character. -/
def isDigitChar (ch : Char) : Bool :=
  decide (48 ≤ ch.toNat) && decide (ch.toNat ≤ 57)

/-- Parse an unsigned decimal numeral (the digit-string format `str`
emits; `int`/`Fraction` accept these). -/
def parseNatChars (cs : List Char) : Option Nat :=
  if cs.isEmpty then none
  else if cs.all isDigitChar then
    some (cs.foldl (fun a ch => a * 10 + (ch.toNat - 48)) 0)
  else none

/-- Parse an optionally `-`-signed decimal numeral. -/
def parseIntChars (cs : List Char) : Option Int :=
  match cs with
  | [] => none
  | ch :: rest =>
    if ch = '-' then
      match parseNatChars rest with
      | some v => some (-(v : Int))
      | none => none
    else
      match parseNatChars cs with
      | some v => some ((v : Int))
      | none => none

/-- Split a character list at the first `/`, as `Fraction` separates
numerator and denominator. -/
def splitSlash : List Char → List Char × Option (List Char)
  | [] => ([], none)
  | ch :: rest =>
    if ch = '/' then ([], some rest)
    else
      let p := splitSlash rest
      (ch :: p.1, p.2)

/-- `Fraction(string)` on the `p` and `p/q` formats `str` emits:
numerator, optional `/`-separated positive denominator (a zero
denominator raises, modelled as `none`). -/
def parseFracChars (cs : List Char) : Option ℚ :=
  match splitSlash cs with
  | (numcs, none) =>
    match parseIntChars numcs with
    | some i => some ((i : ℚ))
    | none => none
  | (numcs, some dencs) =>
    match parseIntChars numcs, parseNatChars dencs with
    | some i, some d => if d = 0 then none else some ((i : ℚ) / (d : ℚ))
    | _, _ => none

/-- `Fraction(string)` on a Lean string. -/
def parseFrac (s : String) : Option ℚ := parseFracChars s.data

/-- Python dict read `data[key]`: `KeyError` when absent.  The saved
object is modelled as its ordered field list. -/
def jGet (data : List (String × Json)) (key : String) : Except Err Json :=
  match data.lookup key with
  | some v => .ok v
  | none => .error .keyError

/-- Python list read `x[k]` on a JSON array (nonnegative indices, the
only ones the loader uses). -/
def jArrGet (j : Json) (k : Nat) : Except Err Json :=
  match j with
  | .arr l =>
    match l.get? k with
    | some x => .ok x
    | none => .error .indexError
  | _ => .error .typeError

/-- `Frac(x)` on a JSON value: accepts an integer or a rational
numeral string. -/
def fracOfJson (j : Json) : Except Err ℚ :=
  match j with
  | .num v => .ok (v : ℚ)
  | .str s =>
    match parseFrac s with
    | some q => .ok q
    | none => .error .valueError
  | _ => .error .typeError

/-- `str(x)` on a JSON value (string positions of the saved format only
ever hold strings; numbers and booleans render in Python style, and
container `repr`s are not modelled). -/
def strOfJson : Json → String
  | .str s => s
  | .num v => String.mk (intChars v)
  | .bool b => if b then "True" else "False"
  | .arr _ => ""
  | .obj _ => ""

/-- `bool(x)` on a JSON value: Python truthiness. -/
def boolOfJson : Json → Bool
  | .bool b => b
  | .num v => decide (v ≠ 0)
  | .str s => decide (s ≠ "")
  | .arr l => !l.isEmpty
  | .obj l => !l.isEmpty

/-- The positive-`int` assertion `loadJson` applies to `m` and `n`. -/
def natFieldPos (j : Json) : Except Err Nat :=
  match j with
  | .num v => if 0 < v then .ok v.toNat else .error (.assertFail "loadJson")
  | _ => .error (.assertFail "loadJson")

/-- Sequential effectful map over indices, as the loader's `for` loops
build each list. -/
def mapE {α : Type} (f : Nat → Except Err α) : List Nat → Except Err (List α)
  | [] => .ok []
  | x :: xs => do
    let a ← f x
    let rest ← mapE f xs
    return a :: rest

namespace Tableau

/-- `saveJson`: the persisted object — fields `m, n` as integers, `z`,
`c`, `b`, `a` as exact rational text, `cl` as strings and `cm` as
booleans, in the source's insertion order. -/
def saveJson (t : Tableau) : List (String × Json) :=
  [("m", .num (t.m : Int)), ("n", .num (t.n : Int)),
   ("z", .str (fracStr t.z)),
   ("c", .arr (t.c.map (fun x => .str (fracStr x)))),
   ("b", .arr (t.b.map (fun x => .str (fracStr x)))),
   ("a", .arr (t.a.map (fun row => .arr (row.map (fun x =>
     .str (fracStr x)))))),
   ("cl", .arr (t.cl.map .str)),
   ("cm", .arr (t.cm.map .bool))]

/-- `loadJson`: reconstruct a tableau from a saved object, with the
source's dimension assertions and elementwise `Frac`/`str`/`bool`
conversions. -/
def loadJson (data : List (String × Json)) : Except Err Tableau := do
  let m ← natFieldPos (← jGet data "m")
  let n ← natFieldPos (← jGet data "n")
  let z ← fracOfJson (← jGet data "z")
  let jc ← jGet data "c"
  let c ← mapE (fun j => do fracOfJson (← jArrGet jc j)) (List.range n)
  let jb ← jGet data "b"
  let b ← mapE (fun i => do fracOfJson (← jArrGet jb i)) (List.range m)
  let ja ← jGet data "a"
  let a ← mapE (fun i => do
    let jrow ← jArrGet ja i
    mapE (fun j => do fracOfJson (← jArrGet jrow j)) (List.range n))
    (List.range m)
  let jcl ← jGet data "cl"
  let cl ← mapE (fun j => do pure (strOfJson (← jArrGet jcl j)))
    (List.range n)
  let jcm ← jGet data "cm"
  let cm ← mapE (fun j => do pure (boolOfJson (← jArrGet jcm j)))
    (List.range n)
  return ⟨m, n, z, c, b, a, cl, cm⟩

end Tableau

theorem toNat_digitChar (d : Nat) (h : d < 10) :
    (Char.ofNat (48 + d)).toNat = 48 + d := by
  interval_cases d <;> rfl

theorem decDigitsAux_lt (fuel : Nat) :
    ∀ (n : Nat), ∀ d ∈ decDigitsAux fuel n, d < 10 := by
  induction fuel with
  | zero =>
    intro n d hd
    exact absurd hd (by unfold decDigitsAux; simp)
  | succ fuel ih =>
    intro n d hd
    match n with
    | 0 => exact absurd hd (by unfold decDigitsAux; simp)
    | k + 1 =>
      unfold decDigitsAux at hd
      rcases List.mem_cons.mp hd with h1 | h1
      · rw [h1]
        exact Nat.mod_lt _ (by norm_num)
      · exact ih _ d h1

theorem decDigitsAux_eq (fuel : Nat) :
    ∀ (n : Nat), n ≤ fuel → decDigitsAux fuel n = Nat.digits 10 n := by
  induction fuel with
  | zero =>
    intro n hn
    have h0 : n = 0 := Nat.le_zero.mp hn
    subst h0
    simp [decDigitsAux, Nat.digits_zero]
  | succ fuel ih =>
    intro n hn
    match n with
    | 0 => simp [decDigitsAux, Nat.digits_zero]
    | k + 1 =>
      unfold decDigitsAux
      rw [ih ((k + 1) / 10)
          (Nat.le_of_lt_succ (Nat.lt_of_lt_of_le
            (Nat.div_lt_self (Nat.succ_pos k) (by norm_num)) hn)),
        Nat.digits_def' (by norm_num : 1 < 10) (Nat.succ_pos k)]

theorem parse_fold_digits (ds : List Nat) :
    ∀ (a : Nat), (∀ d ∈ ds, d < 10) →
      List.foldl (fun acc ch => acc * 10 + (ch.toNat - 48)) a
        ((ds.map (fun d => Char.ofNat (48 + d))).reverse) =
      a * 10 ^ ds.length + Nat.ofDigits 10 ds := by
  induction ds with
  | nil =>
    intro a _
    simp [Nat.ofDigits_nil]
  | cons d ds ih =>
    intro a hlt
    rw [List.map_cons, List.reverse_cons, List.foldl_append,
      ih a (fun x hx => hlt x (List.mem_cons_of_mem _ hx)),
      List.foldl_cons, List.foldl_nil,
      toNat_digitChar d (hlt d (List.mem_cons_self d ds)),
      Nat.add_sub_cancel_left, Nat.ofDigits_cons, List.length_cons]
    ring

theorem natChars_all_digits (n : Nat) :
    ∀ ch ∈ natChars n, isDigitChar ch = true := by
  intro ch hch
  unfold natChars at hch
  by_cases hn : n = 0
  · rw [if_pos hn] at hch
    rcases List.mem_singleton.mp hch with h
    rw [h]
    rfl
  · rw [if_neg hn] at hch
    rw [List.mem_reverse] at hch
    obtain ⟨d, hd, hmap⟩ := List.mem_map.mp hch
    have hd10 : d < 10 := decDigitsAux_lt n n d hd
    rw [← hmap]
    unfold isDigitChar
    rw [toNat_digitChar d hd10, Bool.and_eq_true, decide_eq_true_eq,
      decide_eq_true_eq]
    omega

theorem natChars_ne_nil (n : Nat) : natChars n ≠ [] := by
  unfold natChars
  by_cases hn : n = 0
  · rw [if_pos hn]
    simp
  · rw [if_neg hn]
    match n, hn with
    | k + 1, _ =>
      unfold decDigitsAux
      simp

theorem parseNat_natChars (n : Nat) : parseNatChars (natChars n) = some n := by
  unfold parseNatChars
  rw [if_neg (by
    rw [List.isEmpty_iff]
    exact natChars_ne_nil n)]
  rw [if_pos (List.all_eq_true.mpr (natChars_all_digits n))]
  by_cases hn : n = 0
  · subst hn
    rfl
  · unfold natChars
    rw [if_neg hn, decDigitsAux_eq n n (le_refl n),
      parse_fold_digits (Nat.digits 10 n) 0
        (fun d hd => Nat.digits_lt_base (by norm_num) hd),
      Nat.ofDigits_digits]
    simp

theorem head_natChars_ne_minus (n : Nat) (ch : Char) (rest : List Char)
    (h : natChars n = ch :: rest) : ¬ ch = '-' := by
  intro hcon
  have hmem : ch ∈ natChars n := by
    rw [h]
    exact List.mem_cons_self ch rest
  have := natChars_all_digits n ch hmem
  rw [hcon] at this
  exact absurd this (by decide)

theorem parseInt_intChars (i : Int) : parseIntChars (intChars i) = some i := by
  unfold intChars
  by_cases hneg : i < 0
  · rw [if_pos hneg]
    simp only [parseIntChars, if_true]
    rw [parseNat_natChars]
    have hval : -(i.natAbs : Int) = i := by omega
    show some (-(i.natAbs : Int)) = some i
    rw [hval]
  · rw [if_neg hneg]
    match hcs : natChars i.toNat with
    | [] => exact absurd hcs (natChars_ne_nil _)
    | ch :: rest =>
      simp only [parseIntChars]
      rw [if_neg (head_natChars_ne_minus _ _ _ hcs), ← hcs,
        parseNat_natChars]
      have hval : ((i.toNat : Int)) = i := by omega
      show some ((i.toNat : Int)) = some i
      rw [hval]

theorem no_slash_natChars (n : Nat) : ∀ ch ∈ natChars n, ¬ ch = '/' := by
  intro ch hch hcon
  have := natChars_all_digits n ch hch
  rw [hcon] at this
  exact absurd this (by decide)

theorem no_slash_intChars (i : Int) : ∀ ch ∈ intChars i, ¬ ch = '/' := by
  intro ch hch
  unfold intChars at hch
  by_cases hneg : i < 0
  · rw [if_pos hneg] at hch
    rcases List.mem_cons.mp hch with h1 | h1
    · rw [h1]
      decide
    · exact no_slash_natChars _ ch h1
  · rw [if_neg hneg] at hch
    exact no_slash_natChars _ ch hch

theorem splitSlash_of_no_slash (cs : List Char)
    (h : ∀ ch ∈ cs, ¬ ch = '/') : splitSlash cs = (cs, none) := by
  induction cs with
  | nil => rfl
  | cons ch rest ih =>
    unfold splitSlash
    rw [if_neg (h ch (List.mem_cons_self ch rest)),
      ih (fun x hx => h x (List.mem_cons_of_mem _ hx))]

theorem splitSlash_append (l r : List Char)
    (h : ∀ ch ∈ l, ¬ ch = '/') :
    splitSlash (l ++ '/' :: r) = (l, some r) := by
  induction l with
  | nil =>
    rw [List.nil_append]
    simp only [splitSlash, if_true]
  | cons ch rest ih =>
    rw [List.cons_append]
    unfold splitSlash
    rw [if_neg (h ch (List.mem_cons_self ch rest)),
      ih (fun x hx => h x (List.mem_cons_of_mem _ hx))]

theorem parseFrac_fracStr (q : ℚ) : parseFrac (fracStr q) = some q := by
  have hdata : (fracStr q).data = fracChars q := rfl
  unfold parseFrac
  rw [hdata]
  unfold parseFracChars fracChars
  by_cases hden : q.den = 1
  · rw [if_pos hden,
      splitSlash_of_no_slash (intChars q.num) (no_slash_intChars q.num)]
    show (match parseIntChars (intChars q.num) with
      | some i => some ((i : ℚ))
      | none => none) = some q
    rw [parseInt_intChars]
    show some ((q.num : ℚ)) = some q
    congr 1
    have h1 := Rat.num_div_den q
    rw [hden] at h1
    simpa using h1
  · rw [if_neg hden,
      splitSlash_append (intChars q.num) (natChars q.den)
        (no_slash_intChars q.num)]
    show (match parseIntChars (intChars q.num),
        parseNatChars (natChars q.den) with
      | some i, some d => if d = 0 then none else some ((i : ℚ) / (d : ℚ))
      | _, _ => none) = some q
    rw [parseInt_intChars, parseNat_natChars]
    show (if q.den = 0 then none else some ((q.num : ℚ) / (q.den : ℚ)))
      = some q
    rw [if_neg q.den_nz]
    rw [Rat.num_div_den]

namespace Tableau

theorem getD_set {α : Type} (l : List α) (i k : Nat) (x d : α) :
    (l.set i x).getD k d = if i = k ∧ i < l.length then x else l.getD k d := by
  by_cases h : i = k
  · subst h
    by_cases hl : i < l.length
    · simp [List.getD_eq_getElem?_getD, List.getElem?_set, hl]
    · rw [List.set_eq_of_length_le (Nat.le_of_not_lt hl)]
      simp [hl]
  · simp [List.getD_eq_getElem?_getD, List.getElem?_set, h]

theorem getD_rangeMap {α : Type} (n k : Nat) (f : Nat → α) (d : α) :
    (((List.range n).map f).getD k d) = if k < n then f k else d := by
  by_cases h : k < n
  · rw [List.getD_eq_getElem?_getD, List.getElem?_map]
    simp [List.getElem?_range h, h]
  · rw [List.getD_eq_getElem?_getD, List.getElem?_eq_none]
    · simp [h]
    · simpa using Nat.le_of_not_lt h

theorem getD_map_mul (row : List ℚ) (k : ℚ) (j : Nat) :
    ((row.map (fun x => x * k)).getD j 0) = row.getD j 0 * k := by
  rw [List.getD_eq_getElem?_getD, List.getElem?_map, List.getD_eq_getElem?_getD]
  cases row[j]? <;> simp

@[simp] theorem rowMult_m (t : Tableau) (r : Nat) (k : ℚ) :
    (t.rowMult r k).m = t.m := by
  unfold rowMult; split <;> rfl

@[simp] theorem rowMult_n (t : Tableau) (r : Nat) (k : ℚ) :
    (t.rowMult r k).n = t.n := by
  unfold rowMult; split <;> rfl

@[simp] theorem rowMult_z (t : Tableau) (r : Nat) (k : ℚ) :
    (t.rowMult r k).z = t.z := by
  unfold rowMult; split <;> rfl

@[simp] theorem rowMult_c (t : Tableau) (r : Nat) (k : ℚ) :
    (t.rowMult r k).c = t.c := by
  unfold rowMult; split <;> rfl

@[simp] theorem rowMult_cl (t : Tableau) (r : Nat) (k : ℚ) :
    (t.rowMult r k).cl = t.cl := by
  unfold rowMult; split <;> rfl

@[simp] theorem rowMult_cm (t : Tableau) (r : Nat) (k : ℚ) :
    (t.rowMult r k).cm = t.cm := by
  unfold rowMult; split <;> rfl

theorem bi_rowMult (t : Tableau) (r : Nat) (k : ℚ) (i : Nat)
    (hr : r < t.b.length) :
    (t.rowMult r k).bi i = if i = r then t.bi i * k else t.bi i := by
  unfold rowMult bi
  split
  · rename_i hk
    subst hk
    split <;> simp
  · simp only [getD_set]
    by_cases h : i = r
    · subst h
      rw [if_pos ⟨rfl, hr⟩, if_pos rfl]
    · rw [if_neg (fun hc => h hc.1.symm), if_neg h]

theorem aij_rowMult (t : Tableau) (r : Nat) (k : ℚ) (i j : Nat)
    (hr : r < t.a.length) :
    (t.rowMult r k).aij i j = if i = r then t.aij i j * k else t.aij i j := by
  unfold rowMult aij
  split
  · rename_i hk
    subst hk
    split <;> simp
  · simp only [getD_set]
    by_cases h : i = r
    · subst h
      rw [if_pos ⟨rfl, hr⟩, if_pos rfl, getD_map_mul]
    · rw [if_neg (fun hc => h hc.1.symm), if_neg h]

@[simp] theorem rowAdd_m (t : Tableau) (rd rs : Nat) (k : ℚ) :
    (t.rowAdd rd rs k).m = t.m := by
  unfold rowAdd; split <;> rfl

@[simp] theorem rowAdd_n (t : Tableau) (rd rs : Nat) (k : ℚ) :
    (t.rowAdd rd rs k).n = t.n := by
  unfold rowAdd; split <;> rfl

@[simp] theorem rowAdd_z (t : Tableau) (rd rs : Nat) (k : ℚ) :
    (t.rowAdd rd rs k).z = t.z := by
  unfold rowAdd; split <;> rfl

@[simp] theorem rowAdd_c (t : Tableau) (rd rs : Nat) (k : ℚ) :
    (t.rowAdd rd rs k).c = t.c := by
  unfold rowAdd; split <;> rfl

@[simp] theorem rowAdd_cl (t : Tableau) (rd rs : Nat) (k : ℚ) :
    (t.rowAdd rd rs k).cl = t.cl := by
  unfold rowAdd; split <;> rfl

@[simp] theorem rowAdd_cm (t : Tableau) (rd rs : Nat) (k : ℚ) :
    (t.rowAdd rd rs k).cm = t.cm := by
  unfold rowAdd; split <;> rfl

theorem bi_rowAdd (t : Tableau) (rd rs : Nat) (k : ℚ) (i : Nat)
    (hrd : rd < t.b.length) :
    (t.rowAdd rd rs k).bi i =
      if i = rd then t.bi i + k * t.bi rs else t.bi i := by
  unfold rowAdd bi
  split
  · rename_i hk
    subst hk
    split <;> simp
  · simp only [getD_set]
    by_cases h : i = rd
    · subst h
      rw [if_pos ⟨rfl, hrd⟩, if_pos rfl]
    · rw [if_neg (fun hc => h hc.1.symm), if_neg h]

/-- Entries of the destination row after `rowAdd`, for column indices
below `n`; the source row is read before any write, which also matches
the in-place Python loop when `rd = rs`. -/
theorem aij_rowAdd (t : Tableau) (rd rs : Nat) (k : ℚ) (i j : Nat)
    (hrd : rd < t.a.length) (hj : j < t.n) :
    (t.rowAdd rd rs k).aij i j =
      if i = rd then t.aij i j + k * t.aij rs j else t.aij i j := by
  unfold rowAdd aij
  split
  · rename_i hk
    subst hk
    split <;> simp
  · simp only [getD_set]
    by_cases h : i = rd
    · subst h
      rw [if_pos ⟨rfl, hrd⟩, if_pos rfl, getD_rangeMap, if_pos hj]
    · rw [if_neg (fun hc => h hc.1.symm), if_neg h]

@[simp] theorem rowAddToObj_m (t : Tableau) (r : Nat) (k : ℚ) :
    (t.rowAddToObj r k).m = t.m := by
  unfold rowAddToObj; split <;> rfl

@[simp] theorem rowAddToObj_n (t : Tableau) (r : Nat) (k : ℚ) :
    (t.rowAddToObj r k).n = t.n := by
  unfold rowAddToObj; split <;> rfl

@[simp] theorem rowAddToObj_b (t : Tableau) (r : Nat) (k : ℚ) :
    (t.rowAddToObj r k).b = t.b := by
  unfold rowAddToObj; split <;> rfl

@[simp] theorem rowAddToObj_a (t : Tableau) (r : Nat) (k : ℚ) :
    (t.rowAddToObj r k).a = t.a := by
  unfold rowAddToObj; split <;> rfl

@[simp] theorem rowAddToObj_cl (t : Tableau) (r : Nat) (k : ℚ) :
    (t.rowAddToObj r k).cl = t.cl := by
  unfold rowAddToObj; split <;> rfl

@[simp] theorem rowAddToObj_cm (t : Tableau) (r : Nat) (k : ℚ) :
    (t.rowAddToObj r k).cm = t.cm := by
  unfold rowAddToObj; split <;> rfl

theorem z_rowAddToObj (t : Tableau) (r : Nat) (k : ℚ) :
    (t.rowAddToObj r k).z = t.z + k * t.bi r := by
  unfold rowAddToObj bi
  split
  · rename_i hk; subst hk; simp
  · rfl

theorem cj_rowAddToObj (t : Tableau) (r : Nat) (k : ℚ) (j : Nat)
    (hj : j < t.n) :
    (t.rowAddToObj r k).cj j = t.cj j + k * t.aij r j := by
  unfold rowAddToObj cj aij
  split
  · rename_i hk; subst hk; simp
  · simp only
    rw [getD_rangeMap, if_pos hj]

theorem bi_rowSub (t : Tableau) (rd rs : Nat) (k : ℚ) (i : Nat)
    (hrd : rd < t.b.length) :
    (t.rowSub rd rs k).bi i =
      if i = rd then t.bi i - k * t.bi rs else t.bi i := by
  unfold rowSub
  rw [bi_rowAdd _ _ _ _ _ hrd]
  split <;> ring

theorem aij_rowSub (t : Tableau) (rd rs : Nat) (k : ℚ) (i j : Nat)
    (hrd : rd < t.a.length) (hj : j < t.n) :
    (t.rowSub rd rs k).aij i j =
      if i = rd then t.aij i j - k * t.aij rs j else t.aij i j := by
  unfold rowSub
  rw [aij_rowAdd _ _ _ _ _ _ hrd hj]
  split <;> ring

@[simp] theorem rowSub_m (t : Tableau) (rd rs : Nat) (k : ℚ) :
    (t.rowSub rd rs k).m = t.m := rowAdd_m ..

@[simp] theorem rowSub_n (t : Tableau) (rd rs : Nat) (k : ℚ) :
    (t.rowSub rd rs k).n = t.n := rowAdd_n ..

@[simp] theorem rowSub_z (t : Tableau) (rd rs : Nat) (k : ℚ) :
    (t.rowSub rd rs k).z = t.z := rowAdd_z ..

@[simp] theorem rowSub_c (t : Tableau) (rd rs : Nat) (k : ℚ) :
    (t.rowSub rd rs k).c = t.c := rowAdd_c ..

theorem WF_rowMult (t : Tableau) (r : Nat) (k : ℚ) (h : t.WF) :
    (t.rowMult r k).WF := by
  obtain ⟨h1, h2, h3, h4, h5, h6⟩ := h
  unfold rowMult
  split
  · exact ⟨h1, h2, h3, h4, h5, h6⟩
  · by_cases hr : r < t.a.length
    · refine ⟨by simpa using h1, h2, by simpa using h3, ?_, h5, h6⟩
      intro row hrow
      rcases List.mem_or_eq_of_mem_set hrow with hmem | heq
      · exact h4 row hmem
      · subst heq
        rw [List.length_map, List.getD_eq_getElem?_getD,
          List.getElem?_eq_getElem hr]
        exact h4 _ (List.getElem_mem hr)
    · rw [List.set_eq_of_length_le (Nat.le_of_not_lt hr),
        List.set_eq_of_length_le
          (by rw [h1, ← h3]; exact Nat.le_of_not_lt hr)]
      exact ⟨h1, h2, h3, h4, h5, h6⟩

theorem WF_rowAdd (t : Tableau) (rd rs : Nat) (k : ℚ) (h : t.WF) :
    (t.rowAdd rd rs k).WF := by
  obtain ⟨h1, h2, h3, h4, h5, h6⟩ := h
  unfold rowAdd
  split
  · exact ⟨h1, h2, h3, h4, h5, h6⟩
  · refine ⟨by simpa using h1, h2, by simpa using h3, ?_, h5, h6⟩
    intro row hrow
    rcases List.mem_or_eq_of_mem_set hrow with hmem | heq
    · exact h4 row hmem
    · subst heq
      simp

theorem WF_rowSub (t : Tableau) (rd rs : Nat) (k : ℚ) (h : t.WF) :
    (t.rowSub rd rs k).WF := WF_rowAdd _ _ _ _ h

theorem WF_rowAddToObj (t : Tableau) (r : Nat) (k : ℚ) (h : t.WF) :
    (t.rowAddToObj r k).WF := by
  obtain ⟨h1, h2, h3, h4, h5, h6⟩ := h
  unfold rowAddToObj
  split
  · exact ⟨h1, h2, h3, h4, h5, h6⟩
  · exact ⟨h1, by simp, h3, h4, h5, h6⟩

/-- Pointwise description of the elimination loop of `pivot`: folding
`elimStep r c` over a duplicate-free list of row indices below `m`
subtracts `a[i][c]` times row `r` from every listed row other than `r`
and leaves everything else unchanged. -/
theorem elimFold_spec (r c : Nat) (L : List Nat) :
    ∀ (u : Tableau), u.WF → c < u.n → (∀ x ∈ L, x < u.m) → L.Nodup →
      (L.foldl (elimStep r c) u).WF ∧
      (L.foldl (elimStep r c) u).m = u.m ∧
      (L.foldl (elimStep r c) u).n = u.n ∧
      (L.foldl (elimStep r c) u).z = u.z ∧
      (L.foldl (elimStep r c) u).c = u.c ∧
      (∀ i, (L.foldl (elimStep r c) u).bi i =
        if i ∈ L ∧ i ≠ r then u.bi i - u.aij i c * u.bi r else u.bi i) ∧
      (∀ i j, j < u.n → (L.foldl (elimStep r c) u).aij i j =
        if i ∈ L ∧ i ≠ r then u.aij i j - u.aij i c * u.aij r j
        else u.aij i j) := by
  induction L with
  | nil =>
    intro u hWF _ _ _
    refine ⟨hWF, rfl, rfl, rfl, rfl, ?_, ?_⟩
    · intro i; simp
    · intro i j _; simp
  | cons x rest ih =>
    intro u hWF hc hL hnd
    have hx : x < u.m := hL x (List.mem_cons_self x rest)
    have hxrest : x ∉ rest := (List.nodup_cons.mp hnd).1
    have hndrest : rest.Nodup := (List.nodup_cons.mp hnd).2
    by_cases hxr : x = r
    · subst hxr
      rw [List.foldl_cons, show elimStep x c u x = u from if_pos rfl]
      obtain ⟨w1, w2, w3, w4, w5, w6, w7⟩ :=
        ih u hWF hc (fun y hy => hL y (List.mem_cons_of_mem _ hy)) hndrest
      have hcond : ∀ i : Nat, (i ∈ rest ∧ i ≠ x) ↔ (i ∈ x :: rest ∧ i ≠ x) := by
        intro i
        simp only [List.mem_cons]
        constructor
        · exact fun h => ⟨Or.inr h.1, h.2⟩
        · rintro ⟨h1 | h1, h2⟩
          · exact absurd h1 h2
          · exact ⟨h1, h2⟩
      refine ⟨w1, w2, w3, w4, w5, ?_, ?_⟩
      · intro i
        rw [w6 i, if_congr (hcond i) rfl rfl]
      · intro i j hj
        rw [w7 i j hj, if_congr (hcond i) rfl rfl]
    · rw [List.foldl_cons, show elimStep r c u x = u.rowSub x r (u.aij x c)
        from if_neg hxr]
      have hbx : x < u.b.length := by rw [hWF.1]; exact hx
      have hax : x < u.a.length := by rw [hWF.2.2.1]; exact hx
      have hWF1 : (u.rowSub x r (u.aij x c)).WF := WF_rowSub _ _ _ _ hWF
      have hm1 : (u.rowSub x r (u.aij x c)).m = u.m := by simp
      have hn1 : (u.rowSub x r (u.aij x c)).n = u.n := by simp
      obtain ⟨w1, w2, w3, w4, w5, w6, w7⟩ :=
        ih (u.rowSub x r (u.aij x c)) hWF1 (by rw [hn1]; exact hc)
          (fun y hy => by rw [hm1]; exact hL y (List.mem_cons_of_mem _ hy))
          hndrest
      have hbi1 : ∀ i, (u.rowSub x r (u.aij x c)).bi i =
          if i = x then u.bi i - u.aij x c * u.bi r else u.bi i :=
        fun i => bi_rowSub u x r (u.aij x c) i hbx
      have haij1 : ∀ i j, j < u.n → (u.rowSub x r (u.aij x c)).aij i j =
          if i = x then u.aij i j - u.aij x c * u.aij r j else u.aij i j :=
        fun i j hj => aij_rowSub u x r (u.aij x c) i j hax hj
      have hrx : ¬ r = x := fun h => hxr h.symm
      refine ⟨w1, by rw [w2, hm1], by rw [w3, hn1], by rw [w4, rowSub_z],
        by rw [w5, rowSub_c], ?_, ?_⟩
      · intro i
        rw [w6 i]
        by_cases hiA : i ∈ rest ∧ i ≠ r
        · have hix : i ≠ x := fun h => hxrest (h ▸ hiA.1)
          rw [if_pos hiA, hbi1 i, if_neg hix, hbi1 r, if_neg hrx,
            haij1 i c hc, if_neg hix,
            if_pos ⟨List.mem_cons_of_mem _ hiA.1, hiA.2⟩]
        · rw [if_neg hiA, hbi1 i]
          by_cases hix : i = x
          · subst hix
            rw [if_pos rfl, if_pos ⟨List.mem_cons_self i rest, hxr⟩]
          · rw [if_neg hix, if_neg (fun hcon => hiA
              ⟨(List.mem_cons.mp hcon.1).resolve_left hix, hcon.2⟩)]
      · intro i j hj
        rw [w7 i j (by rw [hn1]; exact hj)]
        by_cases hiA : i ∈ rest ∧ i ≠ r
        · have hix : i ≠ x := fun h => hxrest (h ▸ hiA.1)
          rw [if_pos hiA, haij1 i j hj, if_neg hix, haij1 r j hj,
            if_neg hrx, haij1 i c hc, if_neg hix,
            if_pos ⟨List.mem_cons_of_mem _ hiA.1, hiA.2⟩]
        · rw [if_neg hiA, haij1 i j hj]
          by_cases hix : i = x
          · subst hix
            rw [if_pos rfl, if_pos ⟨List.mem_cons_self i rest, hxr⟩]
          · rw [if_neg hix, if_neg (fun hcon => hiA
              ⟨(List.mem_cons.mp hcon.1).resolve_left hix, hcon.2⟩)]

/-- Full pointwise characterization of a successful `pivot(r, c)` on a
well-formed tableau: row `r` is divided by the pivot entry, and the pivot
column is eliminated from the objective row and every other row. -/
theorem pivot_spec (t : Tableau) (r c : Nat) (hWF : t.WF) (hr : r < t.m)
    (hc : c < t.n) (harc : t.aij r c ≠ 0) :
    ∃ t', t.pivot r c = .ok t' ∧ t'.WF ∧ t'.m = t.m ∧ t'.n = t.n ∧
      t'.z = t.z - t.cj c * (t.bi r / t.aij r c) ∧
      (∀ j, j < t.n →
        t'.cj j = t.cj j - t.cj c * (t.aij r j / t.aij r c)) ∧
      (∀ i, i < t.m → t'.bi i = if i = r then t.bi r / t.aij r c
        else t.bi i - t.aij i c * (t.bi r / t.aij r c)) ∧
      (∀ i j, i < t.m → j < t.n →
        t'.aij i j = if i = r then t.aij r j / t.aij r c
        else t.aij i j - t.aij i c * (t.aij r j / t.aij r c)) := by
  have hbr : r < t.b.length := by rw [hWF.1]; exact hr
  have har : r < t.a.length := by rw [hWF.2.2.1]; exact hr
  set t1 := t.rowMult r (1 / t.aij r c) with ht1
  have ht1WF : t1.WF := WF_rowMult _ _ _ hWF
  have ht1m : t1.m = t.m := rowMult_m ..
  have ht1n : t1.n = t.n := rowMult_n ..
  have ht1c : t1.c = t.c := rowMult_c ..
  have ht1z : t1.z = t.z := rowMult_z ..
  have ht1bi : ∀ i, t1.bi i =
      if i = r then t.bi i * (1 / t.aij r c) else t.bi i :=
    fun i => bi_rowMult t r (1 / t.aij r c) i hbr
  have ht1aij : ∀ i j, t1.aij i j =
      if i = r then t.aij i j * (1 / t.aij r c) else t.aij i j :=
    fun i j => aij_rowMult t r (1 / t.aij r c) i j har
  have ht1cj : ∀ j, t1.cj j = t.cj j := by
    intro j; unfold cj; rw [ht1c]
  set t2 := t1.rowAddToObj r (-(t1.cj c)) with ht2
  have ht2WF : t2.WF := WF_rowAddToObj _ _ _ ht1WF
  have ht2m : t2.m = t.m := by rw [ht2, rowAddToObj_m, ht1m]
  have ht2n : t2.n = t.n := by rw [ht2, rowAddToObj_n, ht1n]
  have ht2b : t2.b = t1.b := rowAddToObj_b ..
  have ht2a : t2.a = t1.a := rowAddToObj_a ..
  have ht2bi : ∀ i, t2.bi i = t1.bi i := by
    intro i; unfold bi; rw [ht2b]
  have ht2aij : ∀ i j, t2.aij i j = t1.aij i j := by
    intro i j; unfold aij; rw [ht2a]
  have ht2z : t2.z = t.z - t.cj c * (t.bi r / t.aij r c) := by
    rw [ht2, z_rowAddToObj, ht1z, ht1cj, ht1bi r, if_pos rfl, mul_one_div]
    ring
  have ht2cj : ∀ j, j < t.n →
      t2.cj j = t.cj j - t.cj c * (t.aij r j / t.aij r c) := by
    intro j hj
    rw [ht2, cj_rowAddToObj _ _ _ _ (by rw [ht1n]; exact hj), ht1cj, ht1cj,
      ht1aij r j, if_pos rfl, mul_one_div]
    ring
  obtain ⟨f1, f2, f3, f4, f5, f6, f7⟩ :=
    elimFold_spec r c (List.range t2.m) t2 ht2WF (by rw [ht2n]; exact hc)
      (fun x hx => List.mem_range.mp hx) (List.nodup_range t2.m)
  refine ⟨(List.range t2.m).foldl (elimStep r c) t2, ?_, f1,
    by rw [f2, ht2m], by rw [f3, ht2n], by rw [f4, ht2z], ?_, ?_, ?_⟩
  · show t.pivot r c = _
    unfold pivot
    rw [if_neg harc]
    have hdiv : t.rowDiv r (t.aij r c) = .ok t1 := by
      unfold rowDiv
      rw [if_neg harc]
    rw [hdiv]
    rfl
  · intro j hj
    have : (List.foldl (elimStep r c) t2 (List.range t2.m)).cj j = t2.cj j := by
      unfold cj; rw [f5]
    rw [this]
    exact ht2cj j hj
  · intro i hi
    rw [f6 i]
    by_cases hir : i = r
    · subst hir
      rw [if_neg (fun hcon => hcon.2 rfl), ht2bi, ht1bi, if_pos rfl,
        if_pos rfl, mul_one_div]
    · rw [if_pos ⟨List.mem_range.mpr (by rw [ht2m]; exact hi), hir⟩,
        if_neg hir, ht2bi, ht2bi, ht2aij, ht1bi, ht1bi, ht1aij,
        if_neg hir, if_neg hir, if_pos rfl, mul_one_div]
  · intro i j hi hj
    rw [f7 i j (by rw [ht2n]; exact hj)]
    by_cases hir : i = r
    · subst hir
      rw [if_neg (fun hcon => hcon.2 rfl), ht2aij, ht1aij, if_pos rfl,
        if_pos rfl, mul_one_div]
    · rw [if_pos ⟨List.mem_range.mpr (by rw [ht2m]; exact hi), hir⟩,
        if_neg hir, ht2aij, ht2aij, ht2aij, ht1aij, ht1aij, ht1aij,
        if_neg hir, if_neg hir, if_pos rfl, mul_one_div]

/-- `setVarMark` changes only the markings, and preserves their count. -/
theorem setVarMark_data (t : Tableau) (j : Int) (v : Bool) :
    (t.setVarMark j v).m = t.m ∧ (t.setVarMark j v).n = t.n ∧
    (t.setVarMark j v).z = t.z ∧ (t.setVarMark j v).c = t.c ∧
    (t.setVarMark j v).b = t.b ∧ (t.setVarMark j v).a = t.a ∧
    (t.setVarMark j v).cl = t.cl ∧
    (t.setVarMark j v).cm.length = t.cm.length := by
  unfold setVarMark
  split
  · exact ⟨rfl, rfl, rfl, rfl, rfl, rfl, rfl, by simp⟩
  · exact ⟨rfl, rfl, rfl, rfl, rfl, rfl, rfl, rfl⟩

/-- The shape invariant transfers along equality of the data fields. -/
theorem WF_of_data (t t' : Tableau) (hm : t'.m = t.m) (hn : t'.n = t.n)
    (hb : t'.b = t.b) (hc : t'.c = t.c) (ha : t'.a = t.a)
    (hcl : t'.cl = t.cl) (hcm : t'.cm.length = t.cm.length)
    (h : t.WF) : t'.WF := by
  obtain ⟨h1, h2, h3, h4, h5, h6⟩ := h
  refine ⟨by rw [hb, hm, h1], by rw [hc, hn, h2], by rw [ha, hm, h3],
    ?_, by rw [hcl, hn, h5], by rw [hcm, hn, h6]⟩
  intro row hrow
  rw [hn]
  exact h4 row (ha ▸ hrow)

/-- Canonical form depends only on `m`, `n`, `b`, `c`, `a`. -/
theorem Canonical_of_data (t t' : Tableau) (hm : t'.m = t.m)
    (hn : t'.n = t.n) (hb : t'.b = t.b) (hc : t'.c = t.c)
    (ha : t'.a = t.a) (h : t.Canonical) : t'.Canonical := by
  obtain ⟨h1, h2⟩ := h
  have hbi : ∀ i, t'.bi i = t.bi i := by intro i; unfold bi; rw [hb]
  have hcj : ∀ j, t'.cj j = t.cj j := by intro j; unfold cj; rw [hc]
  have haij : ∀ i j, t'.aij i j = t.aij i j := by
    intro i j; unfold aij; rw [ha]
  constructor
  · intro i hi
    rw [hbi]
    exact h1 i (hm ▸ hi)
  · intro i hi
    obtain ⟨j, hj, hid⟩ := h2 i (hm ▸ hi)
    refine ⟨j, by rw [hn]; exact hj, ?_, ?_, ?_⟩
    · rw [hcj]; exact hid.1
    · rw [haij]; exact hid.2.1
    · intro k hk hki
      rw [haij]
      exact hid.2.2 k (hm ▸ hk) hki

/-- A pivot at a `GoodPivot` position preserves canonical form: the new
right-hand sides stay nonnegative and every row keeps an aligned
identity column (column `c` for the pivot row, the old one for the
rest). -/
theorem pivot_ok_canonical (t : Tableau) (r c : Nat) (hWF : t.WF)
    (hg : GoodPivot t r c) (hcan : t.Canonical) :
    ∃ t', t.pivot r c = .ok t' ∧ t'.WF ∧ t'.m = t.m ∧ t'.n = t.n ∧
      t'.Canonical := by
  obtain ⟨hr, hc, harc, hdisj⟩ := hg
  obtain ⟨t', hok, hWF', hm, hn, hz, hcj, hbi, haij⟩ :=
    pivot_spec t r c hWF hr hc harc
  refine ⟨t', hok, hWF', hm, hn, ?_, ?_⟩
  · intro i hi
    rw [hm] at hi
    rw [hbi i hi]
    have hq0 : 0 ≤ t.bi r / t.aij r c := by
      rcases hdisj with hb0 | ⟨⟨i0, hi0, hpos0, hatt⟩, _⟩
      · rw [hb0, zero_div]
      · rw [hatt]
        exact div_nonneg (hcan.1 i0 hi0) (le_of_lt hpos0)
    have hqle : ∀ i2, i2 < t.m → 0 < t.aij i2 c →
        t.aij i2 c * (t.bi r / t.aij r c) ≤ t.bi i2 := by
      intro i2 hi2 hpos
      rcases hdisj with hb0 | ⟨_, hmin⟩
      · rw [hb0, zero_div, mul_zero]
        exact hcan.1 i2 hi2
      · have h1 := hmin i2 hi2 hpos
        rw [mul_comm]
        exact (le_div_iff₀ hpos).mp h1
    by_cases hir : i = r
    · rw [if_pos hir]
      exact hq0
    · rw [if_neg hir]
      by_cases hpos : 0 < t.aij i c
      · have := hqle i hi hpos
        linarith
      · have hnp : t.aij i c * (t.bi r / t.aij r c) ≤ 0 :=
          mul_nonpos_of_nonpos_of_nonneg (le_of_not_lt hpos) hq0
        have hb := hcan.1 i hi
        linarith
  · intro i hi
    rw [hm] at hi
    by_cases hir : i = r
    · subst hir
      refine ⟨c, by rw [hn]; exact hc, ?_, ?_, ?_⟩
      · rw [hcj c hc, div_self harc]
        ring
      · rw [haij i c hi hc, if_pos rfl, div_self harc]
      · intro k hk hki
        rw [hm] at hk
        rw [haij k c hk hc, if_neg hki, div_self harc]
        ring
    · obtain ⟨j0, hj0, hident⟩ := hcan.2 i hi
      have hri : r ≠ i := fun h => hir h.symm
      have harj0 : t.aij r j0 = 0 := hident.2.2 r hr hri
      refine ⟨j0, by rw [hn]; exact hj0, ?_, ?_, ?_⟩
      · rw [hcj j0 hj0, harj0, hident.1]
        ring
      · rw [haij i j0 hi hj0, if_neg hir, harj0, hident.2.1]
        ring
      · intro k hk hki
        rw [hm] at hk
        rw [haij k j0 hk hj0]
        by_cases hkr : k = r
        · rw [if_pos hkr]
          subst hkr
          rw [harj0]
          ring
        · rw [if_neg hkr, harj0, hident.2.2 k hk hki]
          ring

theorem getD_zero_of_le {α : Type} (x : List α) (d : α) (k : Nat)
    (h : x.length ≤ k) : x.getD k d = d := by
  rw [List.getD_eq_getElem?_getD, List.getElem?_eq_none h]
  rfl

theorem list_eq_of_getD {α : Type} (d : α) (x : List α) :
    ∀ (y : List α), x.length = y.length →
      (∀ k, x.getD k d = y.getD k d) → x = y := by
  induction x with
  | nil =>
    intro y hlen _
    symm
    exact List.eq_nil_of_length_eq_zero hlen.symm
  | cons a xs ih =>
    intro y hlen hk
    match y with
    | [] => exact absurd hlen (by simp)
    | b :: ys =>
      have h0 : a = b := by
        have := hk 0
        simpa using this
      have htail : xs = ys := by
        refine ih ys (by simpa using hlen) ?_
        intro k
        have := hk (k + 1)
        simpa using this
      rw [h0, htail]

/-- The length of constraint row `i` of a well-formed tableau. -/
theorem row_length (t : Tableau) (hWF : t.WF) (i : Nat) (hi : i < t.m) :
    (t.a.getD i []).length = t.n := by
  have hia : i < t.a.length := by rw [hWF.2.2.1]; exact hi
  rw [List.getD_eq_getElem?_getD, List.getElem?_eq_getElem hia]
  exact hWF.2.2.2.1 _ (List.getElem_mem hia)

/-- Two well-formed tableaus of the same dimensions with pointwise
equal data have equal `b`, `c` and `a` lists. -/
theorem data_lists_eq (t t' : Tableau) (hWF : t.WF) (hWF' : t'.WF)
    (hm : t'.m = t.m) (hn : t'.n = t.n)
    (hb : ∀ i, i < t.m → t'.bi i = t.bi i)
    (hc : ∀ j, j < t.n → t'.cj j = t.cj j)
    (ha : ∀ i j, i < t.m → j < t.n → t'.aij i j = t.aij i j) :
    t'.b = t.b ∧ t'.c = t.c ∧ t'.a = t.a := by
  refine ⟨?_, ?_, ?_⟩
  · refine list_eq_of_getD 0 t'.b t.b (by rw [hWF'.1, hWF.1, hm]) ?_
    intro k
    by_cases hk : k < t.m
    · exact hb k hk
    · rw [getD_zero_of_le _ _ _
          (show t'.b.length ≤ k by
            rw [hWF'.1, hm]; exact Nat.le_of_not_lt hk),
        getD_zero_of_le _ _ _
          (show t.b.length ≤ k by
            rw [hWF.1]; exact Nat.le_of_not_lt hk)]
  · refine list_eq_of_getD 0 t'.c t.c (by rw [hWF'.2.1, hWF.2.1, hn]) ?_
    intro k
    by_cases hk : k < t.n
    · exact hc k hk
    · rw [getD_zero_of_le _ _ _
          (show t'.c.length ≤ k by
            rw [hWF'.2.1, hn]; exact Nat.le_of_not_lt hk),
        getD_zero_of_le _ _ _
          (show t.c.length ≤ k by
            rw [hWF.2.1]; exact Nat.le_of_not_lt hk)]
  · refine list_eq_of_getD [] t'.a t.a
      (by rw [hWF'.2.2.1, hWF.2.2.1, hm]) ?_
    intro i
    by_cases hi : i < t.m
    · refine list_eq_of_getD 0 (t'.a.getD i []) (t.a.getD i [])
        (by rw [row_length t' hWF' i (by rw [hm]; exact hi),
          row_length t hWF i hi, hn]) ?_
      intro j
      by_cases hj : j < t.n
      · exact ha i j hi hj
      · rw [getD_zero_of_le _ _ _
            (show (t'.a.getD i []).length ≤ j by
              rw [row_length t' hWF' i (by rw [hm]; exact hi), hn]
              exact Nat.le_of_not_lt hj),
          getD_zero_of_le _ _ _
            (show (t.a.getD i []).length ≤ j by
              rw [row_length t hWF i hi]; exact Nat.le_of_not_lt hj)]
    · rw [getD_zero_of_le _ _ _
          (show t'.a.length ≤ i by
            rw [hWF'.2.2.1, hm]; exact Nat.le_of_not_lt hi),
        getD_zero_of_le _ _ _
          (show t.a.length ≤ i by
            rw [hWF.2.2.1]; exact Nat.le_of_not_lt hi)]

end Tableau

namespace Simplex

/-- Invariant of the row-selection fold: any result describes a row with
positive coefficient and carries its ratio, is minimal among the listed
rows, and is no larger than the incoming accumulator value. -/
theorem rowFold_spec (t : Tableau) (j : Nat) (L : List Nat) :
    ∀ (acc : Option (Nat × ℚ)),
      (∀ p : Nat × ℚ, acc = some p →
        p.1 < t.m ∧ 0 < t.aij p.1 j ∧ p.2 = t.bi p.1 / t.aij p.1 j) →
      (∀ x ∈ L, x < t.m) →
      ∀ p : Nat × ℚ, L.foldl (stepRow t j) acc = some p →
        (p.1 < t.m ∧ 0 < t.aij p.1 j ∧ p.2 = t.bi p.1 / t.aij p.1 j) ∧
        (∀ i ∈ L, 0 < t.aij i j → p.2 ≤ t.bi i / t.aij i j) ∧
        (∀ q : Nat × ℚ, acc = some q → p.2 ≤ q.2) := by
  induction L with
  | nil =>
    intro acc hacc _ p hp
    rw [List.foldl_nil] at hp
    refine ⟨hacc p hp, by simp, ?_⟩
    intro q hq
    rw [hp] at hq
    cases hq
    exact le_refl _
  | cons y rest ih =>
    intro acc hacc hL p hp
    rw [List.foldl_cons] at hp
    have hy : y < t.m := hL y (List.mem_cons_self y rest)
    have hrest : ∀ x ∈ rest, x < t.m :=
      fun x hx => hL x (List.mem_cons_of_mem _ hx)
    by_cases hpos : t.aij y j ≤ 0
    · have hstep : stepRow t j acc y = acc := by
        unfold stepRow; rw [if_pos hpos]
      rw [hstep] at hp
      obtain ⟨w1, w2, w3⟩ := ih acc hacc hrest p hp
      refine ⟨w1, ?_, w3⟩
      intro i hi hposi
      rcases List.mem_cons.mp hi with hiy | hir
      · subst hiy; exact absurd hposi (not_lt.mpr hpos)
      · exact w2 i hir hposi
    · have hposy : 0 < t.aij y j := lt_of_not_le hpos
      match hacceq : acc with
      | none =>
        have hstep : stepRow t j none y = some (y, t.bi y / t.aij y j) := by
          unfold stepRow
          rw [if_neg hpos]
        rw [hstep] at hp
        obtain ⟨w1, w2, w3⟩ := ih (some (y, t.bi y / t.aij y j))
          (by
            intro q hq
            cases hq
            exact ⟨hy, hposy, rfl⟩)
          hrest p hp
        refine ⟨w1, ?_, ?_⟩
        · intro i hi hposi
          rcases List.mem_cons.mp hi with hiy | hir
          · subst hiy
            exact w3 (i, t.bi i / t.aij i j) rfl
          · exact w2 i hir hposi
        · intro q hq
          cases hq
      | some (i0, mr) =>
        by_cases hlt : t.bi y / t.aij y j < mr
        · have hstep : stepRow t j (some (i0, mr)) y =
              some (y, t.bi y / t.aij y j) := by
            unfold stepRow
            rw [if_neg hpos]
            show (if t.bi y / t.aij y j < mr then some (y, t.bi y / t.aij y j)
              else some (i0, mr)) = _
            rw [if_pos hlt]
          rw [hstep] at hp
          obtain ⟨w1, w2, w3⟩ := ih (some (y, t.bi y / t.aij y j))
            (by
              intro q hq
              cases hq
              exact ⟨hy, hposy, rfl⟩)
            hrest p hp
          have hpq : p.2 ≤ t.bi y / t.aij y j :=
            w3 (y, t.bi y / t.aij y j) rfl
          refine ⟨w1, ?_, ?_⟩
          · intro i hi hposi
            rcases List.mem_cons.mp hi with hiy | hir
            · subst hiy; exact hpq
            · exact w2 i hir hposi
          · intro q hq
            cases hq
            exact le_trans hpq (le_of_lt hlt)
        · have hstep : stepRow t j (some (i0, mr)) y = some (i0, mr) := by
            unfold stepRow
            rw [if_neg hpos]
            show (if t.bi y / t.aij y j < mr then some (y, t.bi y / t.aij y j)
              else some (i0, mr)) = _
            rw [if_neg hlt]
          rw [hstep] at hp
          obtain ⟨w1, w2, w3⟩ := ih (some (i0, mr))
            (fun q hq => by cases hq; exact hacc (i0, mr) rfl)
            hrest p hp
          have hpq : p.2 ≤ mr := w3 (i0, mr) rfl
          refine ⟨w1, ?_, ?_⟩
          · intro i hi hposi
            rcases List.mem_cons.mp hi with hiy | hir
            · subst hiy
              exact le_trans hpq (le_of_not_lt hlt)
            · exact w2 i hir hposi
          · intro q hq
            cases hq
            exact hpq

/-- Specification of `rowScan`: a successful scan returns a row below
`m` with positive coefficient together with its ratio, and that ratio is
minimal over all rows with positive coefficient in column `j`. -/
theorem rowScan_spec (t : Tableau) (j : Nat) (p : Nat × ℚ)
    (h : rowScan t j = some p) :
    p.1 < t.m ∧ 0 < t.aij p.1 j ∧ p.2 = t.bi p.1 / t.aij p.1 j ∧
    (∀ i, i < t.m → 0 < t.aij i j → p.2 ≤ t.bi i / t.aij i j) := by
  obtain ⟨w1, w2, _⟩ := rowFold_spec t j (List.range t.m) none
    (by intro q hq; cases hq) (fun x hx => List.mem_range.mp hx) p h
  exact ⟨w1.1, w1.2.1, w1.2.2,
    fun i hi hp => w2 i (List.mem_range.mpr hi) hp⟩

/-- The value-only minimum-ratio loop of `Simplex.pivot` stays in sync
with the row-selection loop: it computes exactly the ratio component. -/
theorem minRatio_rowScan_sync (t : Tableau) (c : Nat) (L : List Nat) :
    ∀ acc : Option (Nat × ℚ),
      L.foldl (stepMin t c) (acc.map Prod.snd) =
        (L.foldl (stepRow t c) acc).map Prod.snd := by
  induction L with
  | nil => intro acc; rfl
  | cons y rest ih =>
    intro acc
    rw [List.foldl_cons, List.foldl_cons,
      show stepMin t c (acc.map Prod.snd) y = (stepRow t c acc y).map Prod.snd
        from ?_, ih]
    unfold stepMin stepRow
    by_cases hpos : t.aij y c ≤ 0
    · rw [if_pos hpos, if_pos hpos]
    · rw [if_neg hpos, if_neg hpos]
      match acc with
      | none => rfl
      | some (i0, mr) =>
        show (if t.bi y / t.aij y c < mr then some (t.bi y / t.aij y c)
            else some mr) =
          Option.map Prod.snd (if t.bi y / t.aij y c < mr
            then some (y, t.bi y / t.aij y c) else some (i0, mr))
        by_cases hlt : t.bi y / t.aij y c < mr
        · rw [if_pos hlt, if_pos hlt]
          rfl
        · rw [if_neg hlt, if_neg hlt]
          rfl

/-- Specification of `minRatioScan` via `rowScan`. -/
theorem minRatioScan_eq (t : Tableau) (c : Nat) :
    minRatioScan t c = (rowScan t c).map Prod.snd := by
  unfold minRatioScan rowScan
  have h := minRatio_rowScan_sync t c (List.range t.m) none
  simpa using h

/-- Invariant of the standard column-selection fold: any result is a
listed (or incoming) column with negative reduced cost. -/
theorem colFoldStandard_some (t : Tableau) (L : List Nat) :
    ∀ acc : Option Nat, (∀ x, acc = some x → x < t.n ∧ t.cj x < 0) →
      (∀ x ∈ L, x < t.n) →
      ∀ j, L.foldl (stepCol t) acc = some j → j < t.n ∧ t.cj j < 0 := by
  induction L with
  | nil =>
    intro acc hacc _ j hj
    exact hacc j hj
  | cons y rest ih =>
    intro acc hacc hL j hj
    rw [List.foldl_cons] at hj
    refine ih (stepCol t acc y) ?_
      (fun x hx => hL x (List.mem_cons_of_mem _ hx)) j hj
    intro x hx
    have hy : y < t.n := hL y (List.mem_cons_self y rest)
    by_cases hneg : 0 ≤ t.cj y
    · have hstep : stepCol t acc y = acc := by
        unfold stepCol; rw [if_pos hneg]
      rw [hstep] at hx
      exact hacc x hx
    · match hacceq : acc with
      | none =>
        have hstep : stepCol t none y = some y := by
          unfold stepCol; rw [if_neg hneg]
        rw [hstep] at hx
        cases hx
        exact ⟨hy, lt_of_not_le hneg⟩
      | some j0 =>
        by_cases hlt : t.cj y < t.cj j0
        · have hstep : stepCol t (some j0) y = some y := by
            unfold stepCol
            rw [if_neg hneg]
            show (if t.cj y < t.cj j0 then some y else some j0) = _
            rw [if_pos hlt]
          rw [hstep] at hx
          cases hx
          exact ⟨hy, lt_of_not_le hneg⟩
        · have hstep : stepCol t (some j0) y = some j0 := by
            unfold stepCol
            rw [if_neg hneg]
            show (if t.cj y < t.cj j0 then some y else some j0) = _
            rw [if_neg hlt]
          rw [hstep] at hx
          injection hx with hx'
          rw [← hx']
          exact hacc j0 rfl

/-- Specification of `colScanStandard`: a successful scan returns an
in-range column with negative reduced cost. -/
theorem colScanStandard_some (t : Tableau) (j : Nat)
    (h : colScanStandard t = some j) : j < t.n ∧ t.cj j < 0 :=
  colFoldStandard_some t (List.range t.n) none (by intro x hx; cases hx)
    (fun x hx => List.mem_range.mp hx) j h

/-- Specification of `colScanMinIndex`: a successful scan returns an
in-range column with negative reduced cost. -/
theorem colScanMinIndex_some (t : Tableau) (j : Nat)
    (h : colScanMinIndex t = some j) : j < t.n ∧ t.cj j < 0 := by
  unfold colScanMinIndex at h
  refine ⟨List.mem_range.mp (List.mem_of_find?_eq_some h), ?_⟩
  have := List.find?_some h
  exact of_decide_eq_true this

/-- One step of the minimum-index loop: an `unbounded` report from
`findPivotMinIndex` raises the fatal assertion at once. -/
theorem solveLoop2_assert_on_unbounded (fuel : Nat) (t : Tableau)
    (bfs : List Int) (hunb : findPivotMinIndex t = .unbounded) :
    solveLoop2 (fuel + 1) t bfs =
      .error (.assertFail "unbounded artificial problem (internal error)",
        t) := by
  simp only [solveLoop2]
  rw [hunb]

/-- C6 amended: whenever a pivot-search function reports `unbounded`
while `solve` is pivoting — `findPivotStandard` in the first loop, in
phase 1 or phase 2 alike, or `findPivotMinIndex` in the second loop,
reached when the first loop stalls — the solver raises the fatal
assertion (carrying the phase-1 wording) instead of surfacing a return
value; only the `findPivot*` functions themselves return `unbounded` as
a value. -/
theorem solve_fatal_assert_on_unbounded (fuel : Nat) (t t1 : Tableau)
    (bfs bfs1 : List Int) (hWF : t.WF) :
    (findPivotStandard t = .unbounded →
      solve (fuel + 1) t bfs =
        .error
          (.assertFail "unbounded artificial problem (internal error)",
            t)) ∧
    (findPivotMinIndex t = .unbounded →
      solveLoop2 (fuel + 1) t bfs =
        .error
          (.assertFail "unbounded artificial problem (internal error)",
            t)) ∧
    (t.isOptimal = false →
      solveLoop1 t.getZ (t.m + t.n) (fuel + 1) 0 t bfs =
        .ok (false, t1, bfs1) →
      findPivotMinIndex t1 = .unbounded →
      solve (fuel + 1) t bfs =
        .error
          (.assertFail "unbounded artificial problem (internal error)",
            t1)) := by
  refine ⟨?hstd, fun h => solveLoop2_assert_on_unbounded fuel t bfs h,
    ?hchain⟩
  case hchain =>
    intro hopt hloop1 hunb2
    unfold solve
    rw [if_neg (by rw [hopt]; exact Bool.false_ne_true), hloop1]
    show (match solveLoop2 (fuel + 1) t1 bfs1 with
      | .error et =>
        (.error et : Except (Err × Tableau) (Tableau × List Int))
      | .ok (t2, bfs2) =>
        if t2.isOptimal then .ok (t2, bfs2)
        else .error (.assertFail "solver failed (internal error)", t2)) =
        _
    rw [solveLoop2_assert_on_unbounded fuel t1 bfs1 hunb2]
  intro hunb
  have h2 := hunb
  unfold findPivotStandard at h2
  match hcol : colScanStandard t with
  | none =>
    rw [hcol] at h2
    exact absurd h2 (by simp)
  | some j =>
    rw [hcol] at h2
    obtain ⟨hj, hneg⟩ := colScanStandard_some t j hcol
    have hjc : j < t.c.length := by rw [hWF.2.1]; exact hj
    have hmem : t.cj j ∈ t.c := by
      unfold Tableau.cj
      rw [List.getD_eq_getElem?_getD, List.getElem?_eq_getElem hjc]
      exact List.getElem_mem hjc
    have hopt : t.isOptimal = false := by
      cases hB : t.isOptimal with
      | false => rfl
      | true =>
        exfalso
        unfold Tableau.isOptimal at hB
        have hall := List.all_eq_true.mp hB
        have := of_decide_eq_true (hall _ hmem)
        exact absurd this (not_le.mpr hneg)
    have h0 : 0 < t.m + t.n :=
      Nat.lt_of_lt_of_le (Nat.lt_of_le_of_lt (Nat.zero_le j) hj)
        (Nat.le_add_left _ _)
    have hloop : solveLoop1 t.getZ (t.m + t.n) (fuel + 1) 0 t bfs =
        .error
          (.assertFail "unbounded artificial problem (internal error)",
            t) := by
      simp only [solveLoop1]
      rw [if_pos h0, hunb]
    unfold solve
    rw [if_neg (by rw [hopt]; exact Bool.false_ne_true), hloop]

/-- `Tableau.pivot` fails only with a division error. -/
theorem pivot_error_is_zeroDivision (t : Tableau) (r c : Nat) (e : Err)
    (h : t.pivot r c = .error e) : e = .zeroDivision := by
  unfold Tableau.pivot at h
  by_cases harc : t.aij r c = 0
  · rw [if_pos harc] at h
    injection h with h'
    exact h'.symm
  · rw [if_neg harc] at h
    have hdiv : t.rowDiv r (t.aij r c) =
        .ok (t.rowMult r (1 / t.aij r c)) := by
      unfold Tableau.rowDiv
      rw [if_neg harc]
    rw [hdiv] at h
    exact absurd h (by simp)

/-- `pivotMarked` fails only with a division error. -/
theorem pivotMarked_error_is_zeroDivision (t : Tableau) (bfs : List Int)
    (r c : Nat) (e : Err) (h : pivotMarked t bfs r c = .error e) :
    e = .zeroDivision := by
  unfold pivotMarked at h
  match hp : t.pivot r c with
  | .error e0 =>
    rw [hp] at h
    injection h with h'
    exact h' ▸ pivot_error_is_zeroDivision t r c e0 hp
  | .ok t1 =>
    rw [hp] at h
    exact absurd h (by simp)

/-- The repair loop of `_find_bfs` never raises the infeasibility
error: its failures are assertion failures or division errors. -/
theorem repairLoop_no_infeasible (n : Nat) (L : List Nat) :
    ∀ (t : Tableau) (bfs : List Int) (keep : List Bool) (e : Err)
      (st : Tableau), repairLoop n L t bfs keep = .error (e, st) →
        e ≠ .infeasible := by
  induction L with
  | nil =>
    intro t bfs keep e st h
    exact absurd h (by unfold repairLoop; simp)
  | cons i rest ih =>
    intro t bfs keep e st h
    unfold repairLoop at h
    split at h
    · exact ih t bfs keep e st h
    · split at h
      · injection h with h'
        intro hcon
        rw [hcon] at h'
        exact absurd (congrArg Prod.fst h') (by simp)
      · split at h
        · exact ih t bfs (keep.set i false) e st h
        · rename_i j1 hfind
          match hp : pivotMarked t bfs i j1 with
          | .error e0 =>
            rw [hp] at h
            injection h with h'
            have he : e0 = e := congrArg Prod.fst h'
            rw [← he, pivotMarked_error_is_zeroDivision t bfs i j1 e0 hp]
            simp
          | .ok p =>
            rw [hp] at h
            exact ih p.1 p.2 keep e st h

/-- The post-feasibility tail of `_find_bfs` never raises the
infeasibility error. -/
theorem repairAndStrip_no_infeasible (m n : Nat) (origC : List ℚ)
    (origZ : ℚ) (t4 : Tableau) (bfs4 : List Int) (e : Err) (st : Tableau)
    (h : repairAndStrip m n origC origZ t4 bfs4 = .error (e, st)) :
    e ≠ .infeasible := by
  unfold repairAndStrip at h
  match hrep : repairLoop n (List.range m) t4 bfs4 (List.replicate m true) with
  | .error et =>
    rw [hrep] at h
    injection h with h'
    rw [h'] at hrep
    exact repairLoop_no_infeasible n (List.range m) t4 bfs4
      (List.replicate m true) e st hrep
  | .ok (t5, bfs5, keep) =>
    rw [hrep] at h
    dsimp only at h
    split at h
    · injection h with h'
      have hfst :
          Err.assertFail "invalid basic feasible solution (internal error)"
            = e := congrArg Prod.fst h'
      rw [← hfst]
      simp
    · split at h
      · injection h with h'
        have hfst :
            Err.assertFail "tableau not canonical (internal error)" = e :=
          congrArg Prod.fst h'
        rw [← hfst]
        simp
      · exact absurd h (by simp)

/-- C3: when the flipped starting tableau is not canonical (so the
artificial phase runs) and the minimization of the artificial problem
returns normally with final state `t4`, the construction raises the
infeasibility error iff the minimized artificial objective `getZ t4` is
not exactly zero, and in that case the error carries exactly `t4` — the
optimal-artificial-problem state, unrepaired — and no basic sequence is
returned. -/
theorem findBFS_infeasible_iff (fuel : Nat) (t0 t4 : Tableau)
    (bfs4 : List Int)
    (hnc : (flipNegRows t0).isCanonical = false)
    (hsolve : solve fuel (artificialSetup (flipNegRows t0)).1
      (artificialSetup (flipNegRows t0)).2 = .ok (t4, bfs4)) :
    ((∃ st, findBFS fuel t0 = .error (.infeasible, st)) ↔ t4.getZ ≠ 0) ∧
    (t4.getZ ≠ 0 → findBFS fuel t0 = .error (.infeasible, t4)) := by
  have hbfs : findBFS fuel t0 =
      if t4.getZ ≠ 0 then .error (.infeasible, t4)
      else repairAndStrip (flipNegRows t0).m (flipNegRows t0).n
        (flipNegRows t0).c (flipNegRows t0).getZ t4 bfs4 := by
    unfold findBFS
    rw [if_neg (by rw [hnc]; exact Bool.false_ne_true), hsolve]
  by_cases hz : t4.getZ ≠ 0
  · rw [if_pos hz] at hbfs
    exact ⟨⟨fun _ => hz, fun _ => ⟨t4, hbfs⟩⟩, fun _ => hbfs⟩
  · rw [if_neg hz] at hbfs
    refine ⟨⟨?_, fun h => absurd h hz⟩, fun h => absurd h hz⟩
    rintro ⟨st, hst⟩
    rw [hbfs] at hst
    exact absurd rfl
      (repairAndStrip_no_infeasible _ _ _ _ _ _ _ _ hst)

/-- Conditions extracted from a successful checked `Simplex.pivot`. -/
theorem pivot_checked_ok (t : Tableau) (bfs : List Int) (r c : Nat)
    (s' : Tableau × List Int) (h : pivot t bfs r c = .ok s') :
    r < t.m ∧ c < t.n ∧ t.aij r c ≠ 0 ∧
      (some (t.bi r / t.aij r c) : Option ℚ) = minRatioScan t c ∧
      pivotMarked t bfs r c = .ok s' := by
  unfold pivot at h
  split at h
  · rename_i hrc
    split at h
    · exact absurd h (by simp)
    · rename_i harc
      split at h
      · exact absurd h (by simp)
      · rename_i hmr
        exact ⟨hrc.1, hrc.2, harc, not_ne_iff.mp hmr, h⟩
  · exact absurd h (by simp)

/-- A `piv` result of `findPivotStandard` comes from a successful column
scan and row scan. -/
theorem findPivotStandard_piv (t : Tableau) (i j : Nat)
    (h : findPivotStandard t = .piv i j) :
    ∃ q, colScanStandard t = some j ∧ rowScan t j = some (i, q) := by
  unfold findPivotStandard at h
  match hcol : colScanStandard t with
  | none =>
    rw [hcol] at h
    exact absurd h (by simp)
  | some j0 =>
    rw [hcol] at h
    simp only at h
    match hrow : rowScan t j0 with
    | none =>
      rw [hrow] at h
      exact absurd h (by simp)
    | some (i0, q) =>
      rw [hrow] at h
      simp only at h
      injection h with h1 h2
      subst h1
      subst h2
      exact ⟨q, rfl, hrow⟩

/-- A `piv` result of `findPivotMinIndex` comes from a successful column
scan and row scan. -/
theorem findPivotMinIndex_piv (t : Tableau) (i j : Nat)
    (h : findPivotMinIndex t = .piv i j) :
    ∃ q, colScanMinIndex t = some j ∧ rowScan t j = some (i, q) := by
  unfold findPivotMinIndex at h
  match hcol : colScanMinIndex t with
  | none =>
    rw [hcol] at h
    exact absurd h (by simp)
  | some j0 =>
    rw [hcol] at h
    simp only at h
    match hrow : rowScan t j0 with
    | none =>
      rw [hrow] at h
      exact absurd h (by simp)
    | some (i0, q) =>
      rw [hrow] at h
      simp only at h
      injection h with h1 h2
      subst h1
      subst h2
      exact ⟨q, rfl, hrow⟩

/-- A successful `pivotMarked` is a successful `Tableau.pivot` whose
result differs only in the markings. -/
theorem pivotMarked_ok (t : Tableau) (bfs : List Int) (r c : Nat)
    (t' : Tableau) (bfs' : List Int)
    (h : pivotMarked t bfs r c = .ok (t', bfs')) :
    ∃ t1, t.pivot r c = .ok t1 ∧ t'.m = t1.m ∧ t'.n = t1.n ∧
      t'.z = t1.z ∧ t'.c = t1.c ∧ t'.b = t1.b ∧ t'.a = t1.a ∧
      t'.cl = t1.cl ∧ t'.cm.length = t1.cm.length := by
  unfold pivotMarked at h
  match hp : t.pivot r c with
  | .error e =>
    rw [hp] at h
    exact absurd h (by simp)
  | .ok t1 =>
    rw [hp] at h
    injection h with h'
    have ht3 : (t1.setVarMark (bfs.getD r 0) false).setVarMark (c : Int)
        true = t' := congrArg Prod.fst h'
    obtain ⟨d1m, d1n, d1z, d1c, d1b, d1a, d1cl, d1cm⟩ :=
      Tableau.setVarMark_data t1 (bfs.getD r 0) false
    obtain ⟨d2m, d2n, d2z, d2c, d2b, d2a, d2cl, d2cm⟩ :=
      Tableau.setVarMark_data (t1.setVarMark (bfs.getD r 0) false)
        (c : Int) true
    exact ⟨t1, rfl, by rw [← ht3, d2m, d1m], by rw [← ht3, d2n, d1n],
      by rw [← ht3, d2z, d1z], by rw [← ht3, d2c, d1c],
      by rw [← ht3, d2b, d1b], by rw [← ht3, d2a, d1a],
      by rw [← ht3, d2cl, d1cl], by rw [← ht3, d2cm, d1cm]⟩

/-- Every solver pivot step preserves well-formedness and canonical
form. -/
theorem solverStep_preserves (s s' : Tableau × List Int)
    (hstep : SolverStep s s') (hWF : s.1.WF) (hcan : s.1.Canonical) :
    s'.1.WF ∧ s'.1.Canonical := by
  have main : ∀ (r c : Nat), GoodPivot s.1 r c →
      pivotMarked s.1 s.2 r c = .ok (s'.1, s'.2) →
      s'.1.WF ∧ s'.1.Canonical := by
    intro r c hg hpm
    obtain ⟨t1, hok, e1, e2, e3, e4, e5, e6, e7, e8⟩ :=
      pivotMarked_ok s.1 s.2 r c s'.1 s'.2 hpm
    obtain ⟨t1', hok', hWF1, hm1, hn1, hcan1⟩ :=
      Tableau.pivot_ok_canonical s.1 r c hWF hg hcan
    rw [hok] at hok'
    injection hok' with he
    subst he
    exact ⟨Tableau.WF_of_data t1 s'.1 e1 e2 e5 e4 e6 e7 e8 hWF1,
      Tableau.Canonical_of_data t1 s'.1 e1 e2 e5 e4 e6 hcan1⟩
  cases hstep with
  | manual r c h =>
    obtain ⟨hr, hc, harc, hmr, hpm⟩ := pivot_checked_ok _ _ _ _ _ h
    have hg : GoodPivot s.1 r c := by
      refine ⟨hr, hc, harc, Or.inr ?_⟩
      match hrs : rowScan s.1 c with
      | none =>
        rw [minRatioScan_eq, hrs] at hmr
        exact absurd hmr (by simp)
      | some p =>
        rw [minRatioScan_eq, hrs] at hmr
        have hpq : s.1.bi r / s.1.aij r c = p.2 := by
          have h2 : some (s.1.bi r / s.1.aij r c) = some p.2 := by
            simpa using hmr
          injection h2
        obtain ⟨hp1, hp2, hp3, hp4⟩ := rowScan_spec s.1 c p hrs
        constructor
        · exact ⟨p.1, hp1, hp2, by rw [hpq, hp3]⟩
        · intro i2 hi2 hpos
          rw [hpq]
          exact hp4 i2 hi2 hpos
    exact main r c hg hpm
  | standard i j hfind h =>
    obtain ⟨q, hcol, hrow⟩ := findPivotStandard_piv _ _ _ hfind
    obtain ⟨hjn, _⟩ := colScanStandard_some _ _ hcol
    obtain ⟨hi, hpos, hq, hmin⟩ := rowScan_spec _ _ _ hrow
    refine main i j ⟨hi, hjn, ne_of_gt hpos, Or.inr ⟨⟨i, hi, hpos, rfl⟩,
      ?_⟩⟩ h
    intro i2 hi2 hp2
    have := hmin i2 hi2 hp2
    rw [hq] at this
    exact this
  | minIndex i j hfind h =>
    obtain ⟨q, hcol, hrow⟩ := findPivotMinIndex_piv _ _ _ hfind
    obtain ⟨hjn, _⟩ := colScanMinIndex_some _ _ hcol
    obtain ⟨hi, hpos, hq, hmin⟩ := rowScan_spec _ _ _ hrow
    refine main i j ⟨hi, hjn, ne_of_gt hpos, Or.inr ⟨⟨i, hi, hpos, rfl⟩,
      ?_⟩⟩ h
    intro i2 hi2 hp2
    have := hmin i2 hi2 hp2
    rw [hq] at this
    exact this
  | phase1 i j hb hi hj ha h =>
    exact main i j ⟨hi, hj, ha, Or.inl hb⟩ h

end Simplex

/-- C4: starting from a well-formed canonical tableau, any sequence of
pivots performed through `Simplex` — the checked `Simplex.pivot`, the
committed pivots of `findPivotStandard`/`findPivotMinIndex` used inside
`solve`, or the phase-1 repair pivots — leaves `isCanonical()` true and
every `b[i] ≥ 0`. -/
theorem canonical_invariant_under_solver_pivots
    (s s' : Tableau × List Int) (hWF : s.1.WF)
    (hcanB : s.1.isCanonical = true)
    (hsteps : Relation.ReflTransGen SolverStep s s') :
    s'.1.isCanonical = true ∧ (∀ i, i < s'.1.m → 0 ≤ s'.1.bi i) := by
  have hc : s.1.Canonical := of_decide_eq_true hcanB
  have key : s'.1.WF ∧ s'.1.Canonical := by
    induction hsteps with
    | refl => exact ⟨hWF, hc⟩
    | tail hrt hstep ih =>
      exact Simplex.solverStep_preserves _ _ hstep ih.1 ih.2
  exact ⟨decide_eq_true key.2, fun i hi => key.2.1 i hi⟩

/-- Witness for C4: one checked pivot from the canonical `tab1a`. -/
theorem canonical_invariant_under_solver_pivots_witness :
    tab1bMarked.isCanonical = true ∧
      (∀ i, i < tab1bMarked.m → 0 ≤ tab1bMarked.bi i) :=
  canonical_invariant_under_solver_pivots (tab1a, [2, 3])
    (tab1bMarked, [2, 0])
    (of_decide_eq_true (by with_unfolding_all rfl))
    (of_decide_eq_true (by with_unfolding_all rfl))
    (Relation.ReflTransGen.single (SolverStep.manual 1 0
      (of_decide_eq_true (by with_unfolding_all rfl))))

/-- C7: from a canonical tableau, a valid minimum-ratio pivot on
`(r, c)` followed by a pivot on `(r, c0)`, where `c0` was the identity
column aligned to row `r` before the first pivot, restores the original
`a`, `b`, `c` and `z` exactly (only the markings may differ). -/
theorem pivot_roundtrip_restores (t : Tableau) (r c c0 : Nat)
    (hWF : t.WF) (hr : r < t.m) (hc : c < t.n) (hc0 : c0 < t.n)
    (hcanB : t.isCanonical = true) (hident : t.isIdentCol r c0)
    (harc : t.aij r c ≠ 0)
    (hmin : (some (t.bi r / t.aij r c) : Option ℚ) =
      Simplex.minRatioScan t c) :
    ∃ t1 t2, t.pivot r c = .ok t1 ∧ t1.pivot r c0 = .ok t2 ∧
      t2.a = t.a ∧ t2.b = t.b ∧ t2.c = t.c ∧ t2.z = t.z := by
  obtain ⟨hcc0, harc0, hzero⟩ := hident
  obtain ⟨t1, hok1, hWF1, hm1, hn1, hz1, hcj1, hbi1, haij1⟩ :=
    Tableau.pivot_spec t r c hWF hr hc harc
  have e_arc0 : t1.aij r c0 = 1 / t.aij r c := by
    rw [haij1 r c0 hr hc0, if_pos rfl, harc0]
  have harc01 : t1.aij r c0 ≠ 0 := by
    rw [e_arc0]
    exact one_div_ne_zero harc
  obtain ⟨t2, hok2, hWF2, hm2, hn2, hz2, hcj2, hbi2, haij2⟩ :=
    Tableau.pivot_spec t1 r c0 hWF1 (by rw [hm1]; exact hr)
      (by rw [hn1]; exact hc0) harc01
  have hz : t2.z = t.z := by
    rw [hz2, hz1, hcj1 c0 hc0, hbi1 r hr, if_pos rfl, e_arc0, hcc0, harc0]
    field_simp
  have hcje : ∀ j, j < t.n → t2.cj j = t.cj j := by
    intro j hj
    rw [hcj2 j (by rw [hn1]; exact hj), hcj1 j hj, hcj1 c0 hc0,
      haij1 r j hr hj, if_pos rfl, e_arc0, hcc0, harc0]
    field_simp
  have hbie : ∀ i, i < t.m → t2.bi i = t.bi i := by
    intro i hi
    rw [hbi2 i (by rw [hm1]; exact hi)]
    by_cases hir : i = r
    · subst hir
      rw [if_pos rfl, hbi1 i hi, if_pos rfl, e_arc0]
      field_simp
    · rw [if_neg hir, hbi1 i hi, if_neg hir, hbi1 r hr, if_pos rfl,
        haij1 i c0 hi hc0, if_neg hir, hzero i hi hir, harc0, e_arc0]
      field_simp
  have haije : ∀ i j, i < t.m → j < t.n → t2.aij i j = t.aij i j := by
    intro i j hi hj
    rw [haij2 i j (by rw [hm1]; exact hi) (by rw [hn1]; exact hj)]
    by_cases hir : i = r
    · subst hir
      rw [if_pos rfl, haij1 i j hi hj, if_pos rfl, e_arc0]
      field_simp
    · rw [if_neg hir, haij1 i j hi hj, if_neg hir, haij1 r j hr hj,
        if_pos rfl, haij1 i c0 hi hc0, if_neg hir, hzero i hi hir, harc0,
        e_arc0]
      field_simp
  obtain ⟨hbL, hcL, haL⟩ := Tableau.data_lists_eq t t2 hWF hWF2
    (by rw [hm2, hm1]) (by rw [hn2, hn1]) hbie hcje haije
  exact ⟨t1, t2, hok1, hok2, haL, hbL, hcL, hz⟩

/-- Witness for C7 at the textbook tableau: pivot on `(1, 0)` and then
on `(1, 3)` (column `s2` was basic in row 1). -/
theorem pivot_roundtrip_restores_witness :
    ∃ t1 t2, tab1a.pivot 1 0 = .ok t1 ∧ t1.pivot 1 3 = .ok t2 ∧
      t2.a = tab1a.a ∧ t2.b = tab1a.b ∧ t2.c = tab1a.c ∧
      t2.z = tab1a.z :=
  pivot_roundtrip_restores tab1a 1 0 3
    (of_decide_eq_true (by with_unfolding_all rfl))
    (of_decide_eq_true (by with_unfolding_all rfl))
    (of_decide_eq_true (by with_unfolding_all rfl))
    (of_decide_eq_true (by with_unfolding_all rfl))
    (of_decide_eq_true (by with_unfolding_all rfl))
    (of_decide_eq_true (by with_unfolding_all rfl))
    (of_decide_eq_true (by with_unfolding_all rfl))
    (of_decide_eq_true (by with_unfolding_all rfl))

/-- Witness for C3 at the contradictory system `x+y=1`, `x+y=2`: the
artificial phase ends with objective `1 ≠ 0` and the construction
raises the infeasibility error carrying that exact state. -/
theorem findBFS_infeasible_iff_witness :
    Simplex.findBFS 20 infeasInput = .error (.infeasible, infeasArtState) :=
  (Simplex.findBFS_infeasible_iff 20 infeasInput infeasArtState [0, 3]
    (of_decide_eq_true (by with_unfolding_all rfl))
    (of_decide_eq_true (by with_unfolding_all rfl))).2
    (of_decide_eq_true (by with_unfolding_all rfl))

/-- Witness for the amended C6: the first loop asserts on the concrete
unbounded tableau, and the minimum-index loop asserts on the tableau
where only Bland's rule sees the unboundedness. -/
theorem solve_fatal_assert_on_unbounded_witness :
    (Simplex.solve 10 unboundedInput [1] =
      .error (.assertFail "unbounded artificial problem (internal error)",
        unboundedInput)) ∧
    (Simplex.solveLoop2 10 blandGapInput [1] =
      .error (.assertFail "unbounded artificial problem (internal error)",
        blandGapInput)) :=
  ⟨(Simplex.solve_fatal_assert_on_unbounded 9 unboundedInput
      unboundedInput [1] [1]
      (of_decide_eq_true (by with_unfolding_all rfl))).1
    (of_decide_eq_true (by with_unfolding_all rfl)),
   (Simplex.solve_fatal_assert_on_unbounded 9 blandGapInput blandGapInput
      [1] [1]
      (of_decide_eq_true (by with_unfolding_all rfl))).2.1
    (of_decide_eq_true (by with_unfolding_all rfl))⟩

theorem ebind_ok {α β : Type} (x : α) (f : α → Except Err β) :
    (Except.ok x >>= f) = f x := rfl

theorem mapE_ok {α : Type} (f : Nat → Except Err α) (g : Nat → α) :
    ∀ (L : List Nat), (∀ j ∈ L, f j = .ok (g j)) →
      mapE f L = .ok (L.map g) := by
  intro L
  induction L with
  | nil => intro _; rfl
  | cons x xs ih =>
    intro h
    unfold mapE
    rw [h x (List.mem_cons_self x xs), ebind_ok,
      ih (fun y hy => h y (List.mem_cons_of_mem _ hy)), ebind_ok]
    rfl

theorem rangeMap_getD_self {α : Type} (d : α) (l : List α) :
    (List.range l.length).map (fun k => l.getD k d) = l := by
  refine Tableau.list_eq_of_getD d _ _ (by simp) ?_
  intro k
  rw [Tableau.getD_rangeMap]
  by_cases hk : k < l.length
  · rw [if_pos hk]
  · rw [if_neg hk, Tableau.getD_zero_of_le _ _ _ (Nat.le_of_not_lt hk)]

theorem fracOfJson_fracStr (x : ℚ) :
    fracOfJson (.str (fracStr x)) = .ok x := by
  show (match parseFrac (fracStr x) with
    | some q => Except.ok q
    | none => Except.error Err.valueError) = Except.ok x
  rw [parseFrac_fracStr]

theorem jArrGet_map {α : Type} (f : α → Json) (l : List α) (d : α)
    (j : Nat) (hj : j < l.length) :
    jArrGet (.arr (l.map f)) j = .ok (f (l.getD j d)) := by
  have h1 : (l.map f).get? j = some (f (l.getD j d)) := by
    rw [List.get?_eq_getElem?, List.getElem?_map,
      List.getElem?_eq_getElem hj, List.getD_eq_getElem?_getD,
      List.getElem?_eq_getElem hj]
    rfl
  show (match (l.map f).get? j with
    | some x => Except.ok x
    | none => Except.error Err.indexError) = _
  rw [h1]

/-- C8 amended: `saveJson` produces the object with fields
`m:int, n:int, z:string, c:[string], b:[string], a:[[string]]` and the
names and marks under the keys `cl:[string]` and `cm:[bool]` (not
`colNames`/`colMarks`), every numeric field rendered as exact rational
text; `loadJson` of the saved object reconstructs the tableau exactly. -/
theorem saveJson_loadJson_roundtrip (t : Tableau) (hWF : t.WF)
    (hm : 0 < t.m) (hn : 0 < t.n) :
    t.saveJson.map Prod.fst = ["m", "n", "z", "c", "b", "a", "cl", "cm"] ∧
    Tableau.loadJson t.saveJson = .ok t := by
  refine ⟨rfl, ?_⟩
  have hmv : natFieldPos (.num (t.m : Int)) = .ok t.m := by
    show (if 0 < ((t.m : Int)) then Except.ok ((t.m : Int)).toNat
      else Except.error (Err.assertFail "loadJson")) = Except.ok t.m
    rw [if_pos (by exact_mod_cast hm)]
    simp
  have hnv : natFieldPos (.num (t.n : Int)) = .ok t.n := by
    show (if 0 < ((t.n : Int)) then Except.ok ((t.n : Int)).toNat
      else Except.error (Err.assertFail "loadJson")) = Except.ok t.n
    rw [if_pos (by exact_mod_cast hn)]
    simp
  have hcv : mapE (fun j =>
      jArrGet (.arr (t.c.map (fun x => Json.str (fracStr x)))) j >>=
        fun x => fracOfJson x) (List.range t.n) = .ok t.c := by
    have h1 : ∀ j ∈ List.range t.n,
        (jArrGet (.arr (t.c.map (fun x => Json.str (fracStr x)))) j >>=
          fun x => fracOfJson x) = Except.ok (t.c.getD j 0) := by
      intro j hj
      have hjl : j < t.c.length := by
        rw [hWF.2.1]; exact List.mem_range.mp hj
      rw [jArrGet_map _ _ 0 j hjl, ebind_ok, fracOfJson_fracStr]
    rw [mapE_ok _ _ _ h1]
    congr 1
    rw [show List.range t.n = List.range t.c.length by rw [hWF.2.1]]
    exact rangeMap_getD_self 0 t.c
  have hbv : mapE (fun i =>
      jArrGet (.arr (t.b.map (fun x => Json.str (fracStr x)))) i >>=
        fun x => fracOfJson x) (List.range t.m) = .ok t.b := by
    have h1 : ∀ i ∈ List.range t.m,
        (jArrGet (.arr (t.b.map (fun x => Json.str (fracStr x)))) i >>=
          fun x => fracOfJson x) = Except.ok (t.b.getD i 0) := by
      intro i hi
      have hil : i < t.b.length := by
        rw [hWF.1]; exact List.mem_range.mp hi
      rw [jArrGet_map _ _ 0 i hil, ebind_ok, fracOfJson_fracStr]
    rw [mapE_ok _ _ _ h1]
    congr 1
    rw [show List.range t.m = List.range t.b.length by rw [hWF.1]]
    exact rangeMap_getD_self 0 t.b
  have hav : mapE (fun i =>
      jArrGet (.arr (t.a.map (fun row => Json.arr (row.map
        (fun x => Json.str (fracStr x)))))) i >>= fun jrow =>
      mapE (fun j => jArrGet jrow j >>= fun x => fracOfJson x)
        (List.range t.n)) (List.range t.m) = .ok t.a := by
    have h1 : ∀ i ∈ List.range t.m,
        (jArrGet (.arr (t.a.map (fun row => Json.arr (row.map
          (fun x => Json.str (fracStr x)))))) i >>= fun jrow =>
        mapE (fun j => jArrGet jrow j >>= fun x => fracOfJson x)
          (List.range t.n)) = Except.ok (t.a.getD i []) := by
      intro i hi
      have him : i < t.m := List.mem_range.mp hi
      have hil : i < t.a.length := by rw [hWF.2.2.1]; exact him
      rw [jArrGet_map _ _ [] i hil, ebind_ok]
      have h2 : ∀ j ∈ List.range t.n,
          (jArrGet (.arr ((t.a.getD i []).map
            (fun x => Json.str (fracStr x)))) j >>= fun x =>
            fracOfJson x) = Except.ok ((t.a.getD i []).getD j 0) := by
        intro j hj
        have hjl : j < (t.a.getD i []).length := by
          rw [Tableau.row_length t hWF i him]
          exact List.mem_range.mp hj
        rw [jArrGet_map _ _ 0 j hjl, ebind_ok, fracOfJson_fracStr]
      rw [mapE_ok _ _ _ h2]
      congr 1
      rw [show List.range t.n = List.range (t.a.getD i []).length by
        rw [Tableau.row_length t hWF i him]]
      exact rangeMap_getD_self 0 (t.a.getD i [])
    rw [mapE_ok _ _ _ h1]
    congr 1
    rw [show List.range t.m = List.range t.a.length by rw [hWF.2.2.1]]
    exact rangeMap_getD_self [] t.a
  have hclv : mapE (fun j =>
      jArrGet (.arr (t.cl.map Json.str)) j >>= fun x =>
        pure (strOfJson x)) (List.range t.n) = .ok t.cl := by
    have h1 : ∀ j ∈ List.range t.n,
        (jArrGet (.arr (t.cl.map Json.str)) j >>= fun x =>
          pure (strOfJson x)) = Except.ok (t.cl.getD j "") := by
      intro j hj
      have hjl : j < t.cl.length := by
        rw [hWF.2.2.2.2.1]; exact List.mem_range.mp hj
      rw [jArrGet_map _ _ "" j hjl, ebind_ok]
      rfl
    rw [mapE_ok _ _ _ h1]
    congr 1
    rw [show List.range t.n = List.range t.cl.length by
      rw [hWF.2.2.2.2.1]]
    exact rangeMap_getD_self "" t.cl
  have hcmv : mapE (fun j =>
      jArrGet (.arr (t.cm.map Json.bool)) j >>= fun x =>
        pure (boolOfJson x)) (List.range t.n) = .ok t.cm := by
    have h1 : ∀ j ∈ List.range t.n,
        (jArrGet (.arr (t.cm.map Json.bool)) j >>= fun x =>
          pure (boolOfJson x)) = Except.ok (t.cm.getD j false) := by
      intro j hj
      have hjl : j < t.cm.length := by
        rw [hWF.2.2.2.2.2]; exact List.mem_range.mp hj
      rw [jArrGet_map _ _ false j hjl, ebind_ok]
      rfl
    rw [mapE_ok _ _ _ h1]
    congr 1
    rw [show List.range t.n = List.range t.cm.length by
      rw [hWF.2.2.2.2.2]]
    exact rangeMap_getD_self false t.cm
  show Tableau.loadJson t.saveJson = .ok t
  unfold Tableau.loadJson
  rw [show jGet t.saveJson "m" = .ok (.num (t.m : Int)) from rfl, ebind_ok,
    hmv, ebind_ok,
    show jGet t.saveJson "n" = .ok (.num (t.n : Int)) from rfl, ebind_ok,
    hnv, ebind_ok,
    show jGet t.saveJson "z" = .ok (.str (fracStr t.z)) from rfl,
    ebind_ok, fracOfJson_fracStr, ebind_ok,
    show jGet t.saveJson "c" =
      .ok (.arr (t.c.map (fun x => Json.str (fracStr x)))) from rfl,
    ebind_ok, hcv, ebind_ok,
    show jGet t.saveJson "b" =
      .ok (.arr (t.b.map (fun x => Json.str (fracStr x)))) from rfl,
    ebind_ok, hbv, ebind_ok,
    show jGet t.saveJson "a" =
      .ok (.arr (t.a.map (fun row => Json.arr (row.map
        (fun x => Json.str (fracStr x)))))) from rfl,
    ebind_ok, hav, ebind_ok,
    show jGet t.saveJson "cl" = .ok (.arr (t.cl.map Json.str)) from rfl,
    ebind_ok, hclv, ebind_ok,
    show jGet t.saveJson "cm" = .ok (.arr (t.cm.map Json.bool)) from rfl,
    ebind_ok, hcmv, ebind_ok]
  rfl

/-- Witness for the amended C8 at the textbook tableau. -/
theorem saveJson_loadJson_roundtrip_witness :
    tab1a.saveJson.map Prod.fst =
      ["m", "n", "z", "c", "b", "a", "cl", "cm"] ∧
    Tableau.loadJson tab1a.saveJson = .ok tab1a :=
  saveJson_loadJson_roundtrip tab1a
    (of_decide_eq_true (by with_unfolding_all rfl))
    (of_decide_eq_true (by with_unfolding_all rfl))
    (of_decide_eq_true (by with_unfolding_all rfl))

/-- Counterexample to C8 as stated: the saved object stores the names
and marks under the keys `cl` and `cm`; it has no `colNames` or
`colMarks` field. -/
theorem saveJson_no_colNames_colMarks_fields :
    tab1a.saveJson.lookup "colNames" = none ∧
    tab1a.saveJson.lookup "colMarks" = none ∧
    (tab1a.saveJson.lookup "cl").isSome = true ∧
    (tab1a.saveJson.lookup "cm").isSome = true :=
  ⟨by with_unfolding_all rfl, by with_unfolding_all rfl,
    by with_unfolding_all rfl, by with_unfolding_all rfl⟩

/-- C1: for a well-formed tableau and in-range indices, `pivot(r, c)`
fails with a division error iff `a[r][c] = 0`; otherwise it succeeds and
afterwards `a[r][c] = 1`, `a[k][c] = 0` for every other constraint row
`k`, and the reduced cost `c[c] = 0`. -/
theorem pivot_zeroDivision_iff_and_eliminates_column
    (t : Tableau) (r c : Nat) (hWF : t.WF) (hr : r < t.m) (hc : c < t.n) :
    (t.pivot r c = .error .zeroDivision ↔ t.aij r c = 0) ∧
    (∀ t', t.pivot r c = .ok t' →
      t'.aij r c = 1 ∧ (∀ k, k < t.m → k ≠ r → t'.aij k c = 0) ∧
        t'.cj c = 0) := by
  by_cases harc : t.aij r c = 0
  · constructor
    · refine ⟨fun _ => harc, fun _ => ?_⟩
      unfold Tableau.pivot
      rw [if_pos harc]
    · intro t' ht'
      unfold Tableau.pivot at ht'
      rw [if_pos harc] at ht'
      exact absurd ht' (by simp)
  · obtain ⟨t', hok, _, hm, hn, _, hcj, hbi, haij⟩ :=
      Tableau.pivot_spec t r c hWF hr hc harc
    constructor
    · constructor
      · intro herr
        rw [hok] at herr
        exact absurd herr (by simp)
      · intro h0
        exact absurd h0 harc
    · intro t2 ht2
      rw [hok] at ht2
      have ht2' : t' = t2 := by injection ht2
      subst ht2'
      refine ⟨?_, ?_, ?_⟩
      · rw [haij r c hr hc, if_pos rfl, div_self harc]
      · intro k hk hkr
        rw [haij k c hk hc, if_neg hkr, div_self harc]
        ring
      · rw [hcj c hc, div_self harc]
        ring

/-- Witness for C1 at the concrete textbook tableau, `r = 1`, `c = 0`. -/
theorem pivot_zeroDivision_iff_and_eliminates_column_witness :
    (tab1a.pivot 1 0 = .error .zeroDivision ↔ tab1a.aij 1 0 = 0) ∧
    (∀ t', tab1a.pivot 1 0 = .ok t' →
      t'.aij 1 0 = 1 ∧ (∀ k, k < tab1a.m → k ≠ 1 → t'.aij k 0 = 0) ∧
        t'.cj 0 = 0) :=
  pivot_zeroDivision_iff_and_eliminates_column tab1a 1 0
    (of_decide_eq_true (by with_unfolding_all rfl))
    (of_decide_eq_true (by with_unfolding_all rfl))
    (of_decide_eq_true (by with_unfolding_all rfl))

/-- C2: on the textbook tableau, `pivot(1, 0)` produces exactly the
tableau with reported objective `-320`, `c = [0,-10,0,20]`, `b = [4,8]`,
`a = [[0,1/2,1,-1/2],[1,1/2,0,1/2]]`, and the further `pivot(0, 1)`
produces exactly the optimal tableau with reported objective `-400`,
`c = [0,0,20,10]`, `b = [8,4]`, `a = [[0,1,2,-1],[1,0,-1,1]]`. -/
theorem pivot_textbook_example_exact :
    tab1a.pivot 1 0 = .ok tab1b ∧ tab1b.pivot 0 1 = .ok tab1c ∧
      tab1b.getZ = -320 ∧ tab1c.getZ = -400 :=
  of_decide_eq_true (by with_unfolding_all rfl)

/-- C5 (code bug): on `dupRowInput` the phase-1 construction deletes the
linearly dependent row from `b` and `a` but then writes the row count
captured at entry back into `m`, so the tableau it leaves behind has
`m = 2` while `b` and `a` have one row — the shape invariant fails (the
Python code then dies with an `IndexError` inside the canonical-form
assertion, modelled here by the assertion failing on the junk row). -/
theorem findBFS_row_deletion_breaks_shape :
    Simplex.findBFS 20 dupRowInput =
      .error (.assertFail "tableau not canonical (internal error)",
        dupRowFinal) ∧
    dupRowFinal.m = 2 ∧ dupRowFinal.b.length = 1 ∧
    dupRowFinal.a.length = 1 ∧ ¬ dupRowFinal.WF :=
  of_decide_eq_true (by with_unfolding_all rfl)

/-- Counterexample to C6: `unboundedInput` is canonical and feasible, so
a `Simplex` built on it is in phase 2; `findPivotStandard` reports
`unbounded`, and `solve` raises the fatal assertion (with the
phase-1 wording) instead of surfacing a return value. -/
theorem solve_asserts_on_phase2_unbounded :
    unboundedInput.isCanonical = true ∧
    Simplex.findPivotStandard unboundedInput = .unbounded ∧
    Simplex.solve 10 unboundedInput [1] =
      .error (.assertFail "unbounded artificial problem (internal error)",
        unboundedInput) :=
  of_decide_eq_true (by with_unfolding_all rfl)

/-- A `pyGet` read fails exactly when the Python effective index does
not exist: when the index is at least the length, or still negative
after adding the length. -/
theorem pyGet_error_iff {α : Type} (l : List α) (i : Int) :
    Tableau.pyGet l i = .error .indexError ↔
      ((l.length : Int) ≤ i ∨ i + l.length < 0) := by
  unfold Tableau.pyGet Tableau.pyIndex
  by_cases h1 : 0 ≤ i
  · by_cases h2 : i < (l.length : Int)
    · rw [if_pos h1, if_pos h2]
      have hlt : i.toNat < l.length := by omega
      rw [show (some i.toNat).bind l.get? = l.get? i.toNat from rfl,
        List.get?_eq_getElem?, List.getElem?_eq_getElem hlt]
      constructor
      · intro hcon
        simp at hcon
      · intro hcon
        exfalso
        rcases hcon with h | h <;> omega
    · rw [if_pos h1, if_neg h2]
      constructor
      · intro _
        left
        omega
      · intro _
        rfl
  · by_cases h2 : 0 ≤ i + (l.length : Int)
    · rw [if_neg h1, if_pos h2]
      have hlt : (i + (l.length : Int)).toNat < l.length := by omega
      rw [show (some (i + (l.length : Int)).toNat).bind l.get? =
          l.get? (i + (l.length : Int)).toNat from rfl,
        List.get?_eq_getElem?, List.getElem?_eq_getElem hlt]
      constructor
      · intro hcon
        simp at hcon
      · intro hcon
        exfalso
        rcases hcon with h | h <;> omega
    · rw [if_neg h1, if_neg h2]
      constructor
      · intro _
        right
        omega
      · intro _
        rfl

/-- A valid Python index (nonnegative below the length, or negative
with `-length ≤ i`) reads an actual element of the list. -/
theorem pyGet_ok_of_valid {α : Type} (l : List α) (i : Int)
    (h : ¬((l.length : Int) ≤ i ∨ i + l.length < 0)) :
    ∃ (k : Nat) (hk : k < l.length), Tableau.pyGet l i = .ok l[k] := by
  unfold Tableau.pyGet Tableau.pyIndex
  by_cases h1 : 0 ≤ i
  · have h2 : i < (l.length : Int) := by omega
    have hlt : i.toNat < l.length := by omega
    refine ⟨i.toNat, hlt, ?_⟩
    rw [if_pos h1, if_pos h2,
      show (some i.toNat).bind l.get? = l.get? i.toNat from rfl,
      List.get?_eq_getElem?, List.getElem?_eq_getElem hlt]
  · have h2 : 0 ≤ i + (l.length : Int) := by omega
    have hlt : (i + (l.length : Int)).toNat < l.length := by omega
    refine ⟨(i + (l.length : Int)).toNat, hlt, ?_⟩
    rw [if_neg h1, if_pos h2,
      show (some (i + (l.length : Int)).toNat).bind l.get? =
        l.get? (i + (l.length : Int)).toNat from rfl,
      List.get?_eq_getElem?, List.getElem?_eq_getElem hlt]

/-- A negative in-range Python index reads the same element as the
wrapped nonnegative index `i + length`. -/
theorem pyGet_neg_wrap {α : Type} (l : List α) (i : Int) (h1 : i < 0)
    (h2 : 0 ≤ i + l.length) :
    Tableau.pyGet l i = Tableau.pyGet l (i + l.length) := by
  unfold Tableau.pyGet Tableau.pyIndex
  rw [if_neg (not_le.mpr h1), if_pos h2, if_pos h2,
    if_pos (show i + (l.length : Int) < (l.length : Int) by omega)]

/-- `getAij` fails at once when the row index is outside the Python
range, whatever the column index. -/
theorem getAij_row_error (t : Tableau) (i j : Int)
    (h : (t.a.length : Int) ≤ i ∨ i + t.a.length < 0) :
    t.getAij i j = .error .indexError := by
  show (Tableau.pyGet t.a i >>= fun row => Tableau.pyGet row j) =
    .error .indexError
  rw [(pyGet_error_iff t.a i).mpr h]
  rfl

/-- C9 amended: the single-element accessors use plain Python indexing.
Each of `getCj`, `getBi`, `getVarName`, `getVarMark` fails with the
out-of-bounds error exactly for indices at or beyond the length and for
negative indices below `-length`; `getAij` fails at once on a bad row
index and, on a well-formed tableau, fails exactly when the row index
is outside the Python range `[-m, m)` or the column index is outside
`[-n, n)`; and every accessor reads, at a negative in-range index, the
same element as at the wrapped index `index + length` — it returns a
value there instead of failing. -/
theorem accessors_python_index_semantics (t : Tableau) (i j : Int) :
    (t.getCj j = .error .indexError ↔
      ((t.c.length : Int) ≤ j ∨ j + t.c.length < 0)) ∧
    (t.getBi i = .error .indexError ↔
      ((t.b.length : Int) ≤ i ∨ i + t.b.length < 0)) ∧
    (t.getVarName j = .error .indexError ↔
      ((t.cl.length : Int) ≤ j ∨ j + t.cl.length < 0)) ∧
    (t.getVarMark j = .error .indexError ↔
      ((t.cm.length : Int) ≤ j ∨ j + t.cm.length < 0)) ∧
    (((t.a.length : Int) ≤ i ∨ i + t.a.length < 0) →
      t.getAij i j = .error .indexError) ∧
    (t.WF →
      (t.getAij i j = .error .indexError ↔
        ((t.m : Int) ≤ i ∨ i + t.m < 0 ∨
          (t.n : Int) ≤ j ∨ j + t.n < 0))) ∧
    (j < 0 → 0 ≤ j + t.c.length → t.getCj j = t.getCj (j + t.c.length)) ∧
    (i < 0 → 0 ≤ i + t.b.length → t.getBi i = t.getBi (i + t.b.length)) ∧
    (j < 0 → 0 ≤ j + t.cl.length →
      t.getVarName j = t.getVarName (j + t.cl.length)) ∧
    (j < 0 → 0 ≤ j + t.cm.length →
      t.getVarMark j = t.getVarMark (j + t.cm.length)) ∧
    (i < 0 → 0 ≤ i + t.a.length →
      t.getAij i j = t.getAij (i + t.a.length) j) ∧
    (t.WF → j < 0 → 0 ≤ j + t.n →
      t.getAij i j = t.getAij i (j + t.n)) := by
  refine ⟨pyGet_error_iff t.c j, pyGet_error_iff t.b i,
    pyGet_error_iff t.cl j, pyGet_error_iff t.cm j,
    getAij_row_error t i j, ?_,
    fun h1 h2 => pyGet_neg_wrap t.c j h1 h2,
    fun h1 h2 => pyGet_neg_wrap t.b i h1 h2,
    fun h1 h2 => pyGet_neg_wrap t.cl j h1 h2,
    fun h1 h2 => pyGet_neg_wrap t.cm j h1 h2, ?_, ?_⟩
  · intro hWF
    have ha : t.a.length = t.m := hWF.2.2.1
    by_cases hrow : ((t.a.length : Int) ≤ i ∨ i + t.a.length < 0)
    · rw [getAij_row_error t i j hrow]
      constructor
      · intro _
        rcases hrow with h | h <;> omega
      · intro _
        rfl
    · obtain ⟨k, hk, hget⟩ := pyGet_ok_of_valid t.a i hrow
      have hrowlen : (t.a[k]).length = t.n :=
        hWF.2.2.2.1 _ (List.getElem_mem hk)
      have hbind : t.getAij i j = Tableau.pyGet t.a[k] j := by
        show (Tableau.pyGet t.a i >>= fun row => Tableau.pyGet row j) =
          _
        rw [hget]
        rfl
      rw [hbind, pyGet_error_iff, hrowlen]
      constructor
      · intro h
        rcases h with h | h
        · exact Or.inr (Or.inr (Or.inl h))
        · exact Or.inr (Or.inr (Or.inr h))
      · intro h
        rcases h with h | h | h | h
        · exact absurd (Or.inl (show (t.a.length : Int) ≤ i by omega))
            hrow
        · exact absurd
            (Or.inr (show i + (t.a.length : Int) < 0 by omega)) hrow
        · exact Or.inl h
        · exact Or.inr h
  · intro h1 h2
    show (Tableau.pyGet t.a i >>= fun row => Tableau.pyGet row j) =
      (Tableau.pyGet t.a (i + (t.a.length : Int)) >>=
        fun row => Tableau.pyGet row j)
    rw [pyGet_neg_wrap t.a i h1 h2]
  · intro hWF h1 h2
    by_cases hrow : ((t.a.length : Int) ≤ i ∨ i + t.a.length < 0)
    · rw [getAij_row_error t i j hrow,
        getAij_row_error t i (j + (t.n : Int)) hrow]
    · obtain ⟨k, hk, hget⟩ := pyGet_ok_of_valid t.a i hrow
      have hrowlen : (t.a[k]).length = t.n :=
        hWF.2.2.2.1 _ (List.getElem_mem hk)
      have hbind1 : t.getAij i j = Tableau.pyGet t.a[k] j := by
        show (Tableau.pyGet t.a i >>= fun row => Tableau.pyGet row j) =
          _
        rw [hget]
        rfl
      have hbind2 : t.getAij i (j + (t.n : Int)) =
          Tableau.pyGet t.a[k] (j + (t.n : Int)) := by
        show (Tableau.pyGet t.a i >>=
            fun row => Tableau.pyGet row (j + (t.n : Int))) = _
        rw [hget]
        rfl
      rw [hbind1, hbind2,
        pyGet_neg_wrap t.a[k] j h1 (by rw [hrowlen]; exact h2),
        hrowlen]

/-- Witness for the amended C9 on the textbook tableau: the row index
`2` and, with a valid row, the column index `10` are out of range and
`getAij` fails; negative in-range indices read the wrapped element for
`getBi` and for the column index of `getAij`. -/
theorem accessors_python_index_semantics_witness :
    tab1a.getAij 2 0 = .error .indexError ∧
    tab1a.getAij 0 10 = .error .indexError ∧
    tab1a.getBi (-1) = tab1a.getBi (-1 + (tab1a.b.length : Int)) ∧
    tab1a.getAij 0 (-1) = tab1a.getAij 0 (-1 + (tab1a.n : Int)) :=
  ⟨(accessors_python_index_semantics tab1a 2 0).2.2.2.2.1
    (Or.inl (of_decide_eq_true (by with_unfolding_all rfl))),
   ((accessors_python_index_semantics tab1a 0 10).2.2.2.2.2.1
      (of_decide_eq_true (by with_unfolding_all rfl))).mpr
    (Or.inr (Or.inr (Or.inl
      (of_decide_eq_true (by with_unfolding_all rfl))))),
   (accessors_python_index_semantics tab1a (-1) 0).2.2.2.2.2.2.2.1
    (of_decide_eq_true (by with_unfolding_all rfl))
    (of_decide_eq_true (by with_unfolding_all rfl)),
   (accessors_python_index_semantics tab1a 0 (-1)).2.2.2.2.2.2.2.2.2.2.2
    (of_decide_eq_true (by with_unfolding_all rfl))
    (of_decide_eq_true (by with_unfolding_all rfl))
    (of_decide_eq_true (by with_unfolding_all rfl))⟩

/-- Counterexample to C9 as stated: every negative index from
`-length` up wraps around instead of failing — each accessor returns a
value at index `-1`. -/
theorem accessors_negative_index_returns_value :
    tab1a.getCj (-1) = .ok 0 ∧ tab1a.getBi (-1) = .ok 16 ∧
    tab1a.getAij (-1) (-1) = .ok 1 ∧
    tab1a.getAij 0 (-1) = .ok 0 ∧ tab1a.getAij (-1) 0 = .ok 2 ∧
    tab1a.getVarName (-1) = .ok "s2" ∧
    tab1a.getVarMark (-1) = .ok false :=
  ⟨by with_unfolding_all rfl, by with_unfolding_all rfl,
    by with_unfolding_all rfl, by with_unfolding_all rfl,
    by with_unfolding_all rfl, by with_unfolding_all rfl,
    by with_unfolding_all rfl⟩

/-- C10: comparing a `Tableau` with a non-`Tableau` value raises
`TypeError` rather than returning `False`; comparing with a `Tableau`
returns a boolean that is `True` exactly when `m`, `n`, `z`, `c`, `b`,
the rows of `a`, the names and the marks all agree. -/
theorem tableau_eq_typeError_and_field_comparison (t : Tableau)
    (v : PyValue) :
    ((∀ t2, v ≠ PyValue.tab t2) → eqTableau t v = .error .typeError) ∧
    (∀ t2 : Tableau, eqTableau t (.tab t2) = .ok true ↔
      (t.m = t2.m ∧ t.n = t2.n ∧ t.z = t2.z ∧ t.c = t2.c ∧ t.b = t2.b ∧
        (∀ i, i < t.m → t.a.getD i [] = t2.a.getD i []) ∧
        t.cl = t2.cl ∧ t.cm = t2.cm)) := by
  constructor
  · intro h
    match v with
    | .tab t2 => exact absurd rfl (h t2)
    | .pynone => rfl
    | .int _ => rfl
    | .str _ => rfl
    | .bool _ => rfl
  · intro t2
    show Except.ok (decide (t.m = t2.m) && decide (t.n = t2.n) &&
        decide (t.z = t2.z) && decide (t.c = t2.c) &&
        decide (t.b = t2.b) &&
        (List.range t.m).all (fun i =>
          decide (t.a.getD i [] = t2.a.getD i [])) &&
        decide (t.cl = t2.cl) && decide (t.cm = t2.cm)) = .ok true ↔ _
    constructor
    · intro h
      injection h with h'
      simp only [Bool.and_eq_true, decide_eq_true_eq,
        List.all_eq_true, List.mem_range] at h'
      exact ⟨h'.1.1.1.1.1.1.1, h'.1.1.1.1.1.1.2, h'.1.1.1.1.1.2,
        h'.1.1.1.1.2, h'.1.1.1.2, fun i hi => h'.1.1.2 i hi,
        h'.1.2, h'.2⟩
    · intro h
      congr 1
      simp only [Bool.and_eq_true, decide_eq_true_eq,
        List.all_eq_true, List.mem_range]
      exact ⟨⟨⟨⟨⟨⟨⟨h.1, h.2.1⟩, h.2.2.1⟩, h.2.2.2.1⟩, h.2.2.2.2.1⟩,
        fun i hi => h.2.2.2.2.2.1 i hi⟩, h.2.2.2.2.2.2.1⟩,
        h.2.2.2.2.2.2.2⟩

/-- Witness for C10: comparing the textbook tableau with `None` raises
`TypeError`, by the theorem's first part. -/
theorem tableau_eq_typeError_and_field_comparison_witness :
    eqTableau tab1a PyValue.pynone = .error .typeError :=
  (tableau_eq_typeError_and_field_comparison tab1a PyValue.pynone).1
    (fun _ h => PyValue.noConfusion h)

end LpVerif
